import Mathlib

/-!
Verification of the RDTM torrent-manager core against its specification.

The Python sources are shallowly embedded: strings are lists of characters,
timestamps are integers (seconds), SQLite tables are Lean lists of record
structures, and each Python function under scrutiny is translated into a
computable Lean definition keeping its source name (leading underscores of
private Python methods are dropped).  Theorems then settle the spec claims
against these definitions.
-/

namespace RDTM

/-- Characters of a string literal; Python `str` values are modelled as
`List Char`. -/
def str (s : String) : List Char := s.data

/-- Python `str.isspace` set used by `str.strip` (ASCII subset; the sources
only ever strip ASCII whitespace around hex hashes). -/
def isPySpace (c : Char) : Bool :=
  c = ' ' || c = '\t' || c = '\n' || c = '\r' || c = '\x0b' || c = '\x0c'

/-- Python `str.strip()`. -/
def pyStrip (l : List Char) : List Char :=
  ((l.dropWhile isPySpace).reverse.dropWhile isPySpace).reverse

/-- Python `str.lower()` (ASCII). -/
def pyLower (l : List Char) : List Char := l.map Char.toLower

/-- Membership test of a regex class `[a-fA-F0-9]`. -/
def isHexChar (c : Char) : Bool :=
  ('0' ≤ c && c ≤ '9') || ('a' ≤ c && c ≤ 'f') || ('A' ≤ c && c ≤ 'F')

/-- Python `str.split(sep)` for a one-character separator: splits on every
occurrence and keeps empty fields. -/
def splitOnChar (c : Char) : List Char → List (List Char)
  | [] => [[]]
  | x :: xs =>
    if x = c then [] :: splitOnChar c xs
    else
      match splitOnChar c xs with
      | [] => [[x]]
      | g :: gs => (x :: g) :: gs

/-- Python `str.split(sep, 1)`: the part before the first occurrence of `c`,
and the part after it when `c` occurs at all. -/
def breakOnChar (c : Char) : List Char → List Char × Option (List Char)
  | [] => ([], none)
  | x :: xs =>
    if x = c then ([], some xs)
    else
      let r := breakOnChar c xs
      (x :: r.fst, r.snd)

/-! ### Store data model (database.py)

Timestamps are integers (seconds).  A `Store` holds the three tables the
claims touch; `torrents` rows keep SQLite column order. -/

/-- A row of the `torrents` table (database.py, `_create_base_tables` plus the
v2 migration column `needs_symlink_cleanup`). -/
structure TorrentRow where
  id : List Char
  hash : List Char
  filename : List Char
  status : List Char
  size : Int
  added_date : Int
  first_seen : Int
  last_seen : Int
  attempts_count : Nat
  last_attempt : Option Int
  last_success : Option Int
  priority : Int
  metadata : List Char
  needs_symlink_cleanup : Bool
deriving DecidableEq, Repr

/-- A row of the `attempts` table. -/
structure AttemptRow where
  torrent_id : List Char
  attempt_date : Int
  success : Bool
  error_message : List Char
  response_time_ms : Int
  api_response : List Char
deriving DecidableEq, Repr

/-- A row of the `retry_queue` table (unique on (torrent_id, error_type)). -/
structure RetryRow where
  torrent_id : List Char
  filename : List Char
  error_type : List Char
  error_message : List Char
  original_failure : Int
  scheduled_retry : Int
  retry_count : Nat
  last_retry_attempt : Option Int
deriving DecidableEq, Repr

/-- The persistent store restricted to the tables the claims are about. -/
structure Store where
  torrents : List TorrentRow
  attempts : List AttemptRow
  retry_queue : List RetryRow
deriving DecidableEq, Repr

/-- APP_CONFIG max_retry_attempts (config.py). -/
def max_retry_attempts : Nat := 3

/-- APP_CONFIG retry_delay_hours (config.py), in seconds. -/
def retry_delay_seconds : Int := 3 * 3600

/-- The status filter hard-coded in the SQL of `get_failed_torrents`
(database.py line 341): note it does NOT include `symlink_broken`. -/
def failedQueryStatuses : List (List Char) :=
  [str "magnet_error", str "error", str "virus", str "dead"]

/-- The WHERE clause of `get_failed_torrents` (database.py lines 339-350). -/
def failedFilter (now : Int) (exclude_recent_attempts : Bool) (t : TorrentRow) : Bool :=
  decide (t.status ∈ failedQueryStatuses) &&
    decide (t.attempts_count < max_retry_attempts) &&
    (!exclude_recent_attempts ||
      match t.last_attempt with
      | none => true
      | some a => decide (a < now - retry_delay_seconds))

/-- The ORDER BY key of `get_failed_torrents` (database.py line 352):
priority descending, then last_seen descending. -/
def failedLe (a b : TorrentRow) : Bool :=
  decide (b.priority < a.priority) ||
    (decide (a.priority = b.priority) && decide (b.last_seen ≤ a.last_seen))

/-- Embeds `DatabaseManager.get_failed_torrents` (database.py lines 335-378):
SELECT with the status / attempts / recent-attempt filter, sorted by the
ORDER BY key. -/
def get_failed_torrents (db : Store) (now : Int) (exclude_recent_attempts : Bool) :
    List TorrentRow :=
  (db.torrents.filter (failedFilter now exclude_recent_attempts)).mergeSort failedLe

/-- Embeds `DatabaseManager.record_attempt` (database.py lines 380-421):
appends the attempt row and bumps the torrent counters. -/
def record_attempt (db : Store) (a : AttemptRow) : Store :=
  { db with
    attempts := db.attempts ++ [a],
    torrents := db.torrents.map fun t =>
      if t.id = a.torrent_id then
        { t with
          attempts_count := t.attempts_count + 1,
          last_attempt := some a.attempt_date,
          last_success := if a.success then some a.attempt_date else t.last_success }
      else t }

/-- The payload dict handed to `upsert_torrent`; `priority` is optional, the
code reads it with `.get('priority', 2)` on insert.  The JSON-serialised
metadata blob is carried opaquely. -/
structure UpsertData where
  id : List Char
  hash : List Char
  filename : List Char
  status : List Char
  size : Int
  added : Int
  priority : Option Int
  metadata : List Char
  needs_symlink_cleanup : Bool
deriving DecidableEq, Repr

/-- Embeds `DatabaseManager.upsert_torrent` (database.py lines 274-333).
When a row with the same id exists, the UPDATE branch sets only hash,
filename, status, size, added_date, last_seen, metadata and
needs_symlink_cleanup; first_seen, attempts_count and priority are untouched.
The INSERT branch additionally writes first_seen = now, attempts_count = 0 and
the payload priority (default 2). -/
def upsert_torrent (db : Store) (now : Int) (d : UpsertData) : Store :=
  if db.torrents.any (fun t => t.id = d.id) then
    { db with torrents := db.torrents.map fun t =>
        if t.id = d.id then
          { t with
            hash := d.hash, filename := d.filename, status := d.status,
            size := d.size, added_date := d.added, last_seen := now,
            metadata := d.metadata,
            needs_symlink_cleanup := d.needs_symlink_cleanup }
        else t }
  else
    { db with torrents := db.torrents ++
        [{ id := d.id, hash := d.hash, filename := d.filename, status := d.status,
           size := d.size, added_date := d.added, first_seen := now, last_seen := now,
           attempts_count := 0, last_attempt := none, last_success := none,
           priority := d.priority.getD 2, metadata := d.metadata,
           needs_symlink_cleanup := d.needs_symlink_cleanup }] }

/-- Embeds the Correlator promotion step of `_scan_torrents_symlinks`
(torrent_manager.py lines 267-283): each matched catalog torrent is upserted
with status `symlink_broken` and payload priority 3. -/
def promote_symlink_broken (db : Store) (now : Int) (t : TorrentRow) (meta : List Char) :
    Store :=
  upsert_torrent db now
    { id := t.id, hash := t.hash, filename := t.filename,
      status := str "symlink_broken", size := t.size, added := t.added_date,
      priority := some 3, metadata := meta, needs_symlink_cleanup := false }

/-- Embeds `FailureHandler._schedule_retry` (failure_handler.py lines 289-304):
INSERT OR REPLACE of the (torrent_id, error_type) row with the given
scheduled time and retry_count 0. -/
def schedule_retry (db : Store) (now : Int)
    (torrent_id filename error_type : List Char) (retry_time : Int)
    (error_message : List Char) : Store :=
  let keep := db.retry_queue.filter
    (fun r => !(decide (r.torrent_id = torrent_id) && decide (r.error_type = error_type)))
  let fresh : RetryRow :=
    { torrent_id := torrent_id, filename := filename, error_type := error_type,
      error_message := error_message, original_failure := now,
      scheduled_retry := retry_time, retry_count := 0,
      last_retry_attempt := none }
  { db with retry_queue := keep ++ [fresh] }

/-- Embeds `FailureHandler._handle_rate_limit` (failure_handler.py lines
82-98): schedules a retry three hours out and reports success. -/
def handle_rate_limit (db : Store) (now : Int)
    (torrent_id filename error_message : List Char) : Store × Bool :=
  (schedule_retry db now torrent_id filename (str "too_many_requests")
      (now + 3 * 3600) error_message,
    true)

/-- Lookup of the unique (torrent_id, error_type) row of the retry queue. -/
def retryLookup (db : Store) (torrent_id error_type : List Char) : Option RetryRow :=
  db.retry_queue.find?
    (fun r => decide (r.torrent_id = torrent_id) && decide (r.error_type = error_type))

/-- A torrent row in the synthetic `symlink_broken` state, fresh and never
attempted: by the claim it belongs to FAILED_SET and must be returned. -/
def C1row : TorrentRow :=
  { id := str "T1", hash := str "0123456789abcdef0123456789abcdef01234567",
    filename := str "Foo.mkv", status := str "symlink_broken", size := 100,
    added_date := 0, first_seen := 0, last_seen := 10, attempts_count := 0,
    last_attempt := none, last_success := none, priority := 3, metadata := [],
    needs_symlink_cleanup := false }

def C1store : Store := { torrents := [C1row], attempts := [], retry_queue := [] }

/-! ### Claim C3: Correlator promotion and priority -/

def C3existing : TorrentRow :=
  { id := str "T2", hash := str "ffff0123456789abcdef0123456789abcdef0123",
    filename := str "Old Name", status := str "error", size := 5,
    added_date := 1, first_seen := 1, last_seen := 2, attempts_count := 1,
    last_attempt := some 3, last_success := none, priority := 2,
    metadata := str "m", needs_symlink_cleanup := false }

def C3matched : TorrentRow :=
  { id := str "T2", hash := str "ffff0123456789abcdef0123456789abcdef0123",
    filename := str "New Name", status := str "downloaded", size := 7,
    added_date := 4, first_seen := 5, last_seen := 5, attempts_count := 0,
    last_attempt := none, last_success := none, priority := 3, metadata := [],
    needs_symlink_cleanup := false }

def C3store : Store := { torrents := [C3existing], attempts := [], retry_queue := [] }

def C3freshStore : Store := { torrents := [], attempts := [], retry_queue := [] }

/-! ### Validator (torrent_validator.py)

Diagnostic messages are transliterated to plain ASCII; their exact bytes are
not load-bearing for any claim beyond the "Hash invalide" lead of C4. -/

/-- MAGNET_VALIDATION min_hash_length (config.py). -/
def min_hash_length : Nat := 40

/-- Embeds `TorrentValidator.validate_sha1_hash` (torrent_validator.py lines
31-58).  The denylist is an explicit parameter, empty on a fresh validator.
The `sha1_pattern` full-match test reduces to the all-hex test because the
length is checked just before. -/
def validate_sha1_hash (blacklist : List (List Char)) (hash_str : List Char) :
    Bool × List Char :=
  if hash_str = [] then (false, str "Hash vide")
  else
    let hash_clean := pyLower (pyStrip hash_str)
    if hash_clean.length ≠ min_hash_length then
      (false, str "Longueur invalide: " ++ (Nat.repr hash_clean.length).data ++
        str " (attendu: 40)")
    else if !(hash_clean.all isHexChar) then (false, str "Format hexadecimal invalide")
    else if hash_clean ∈ blacklist then (false, str "Hash dans la blacklist")
    else if hash_clean = List.replicate 40 '0' then (false, str "Hash null detecte")
    else if hash_clean.dedup.length < 3 then
      (false, str "Hash suspect (trop peu de caracteres differents)")
    else (true, str "Hash SHA1 valide")

/-- Scheme characters accepted by urllib.parse: letters, digits, plus, minus,
dot. -/
def isSchemeChar (c : Char) : Bool := c.isAlphanum || c = '+' || c = '-' || c = '.'

/-- The scheme extraction of urllib.parse.urlsplit: the text before the first
colon becomes the lower-cased scheme when it is a non-empty run of scheme
characters starting with a letter; otherwise the scheme is empty and the url
is untouched. -/
def urlSchemeSplit (url : List Char) : List Char × List Char :=
  match breakOnChar ':' url with
  | (pre, some rest) =>
    if pre ≠ [] ∧ (pre.headD ' ').isAlpha ∧ pre.all isSchemeChar
    then (pyLower pre, rest) else ([], url)
  | (_, none) => ([], url)

/-- Embeds urllib.parse.urlsplit restricted to the two fields
`validate_magnet_structure` reads, scheme and query, splitting off netloc and
fragment in source order.  Magnet links carry no netloc, so the bracketed-host
error path of the library is outside the model. -/
def urlsplitQuery (url : List Char) : List Char × List Char :=
  let sr := urlSchemeSplit url
  let u1 := sr.snd
  let u2 :=
    if u1.take 2 = str "//" then
      (u1.drop 2).dropWhile (fun c => !(c = '/' || c = '?' || c = '#'))
    else u1
  let u3 := (breakOnChar '#' u2).fst
  let q :=
    match breakOnChar '?' u3 with
    | (_, some qs) => qs
    | (_, none) => []
  (sr.fst, q)

/-- Numeric value of a hex digit. -/
def hexVal (c : Char) : Nat :=
  if '0' ≤ c && c ≤ '9' then c.toNat - '0'.toNat
  else if 'a' ≤ c && c ≤ 'f' then c.toNat - 'a'.toNat + 10
  else c.toNat - 'A'.toNat + 10

/-- Percent-decoding of urllib.parse.unquote for single-byte escapes; an
invalid escape keeps the percent sign, as in Python.  Multi-byte UTF-8
sequences are decoded bytewise, faithful on every input the claims touch. -/
def pctDecode : List Char → List Char
  | [] => []
  | '%' :: a :: b :: rest =>
    if isHexChar a && isHexChar b then
      Char.ofNat (16 * hexVal a + hexVal b) :: pctDecode rest
    else '%' :: pctDecode (a :: b :: rest)
  | c :: rest => c :: pctDecode rest

/-- urllib.parse.unquote_plus: plus signs become spaces, then percent
escapes are decoded. -/
def unquotePlus (l : List Char) : List Char :=
  pctDecode (l.map fun c => if c = '+' then ' ' else c)

/-- Embeds urllib.parse.parse_qsl with default arguments: split the query on
ampersands, keep only fields carrying an equals sign and a non-empty value,
and unquote-plus both name and value. -/
def parse_qsl (qs : List Char) : List (List Char × List Char) :=
  (splitOnChar '&' qs).filterMap fun field =>
    match breakOnChar '=' field with
    | (_, none) => none
    | (name, some value) =>
      if value = [] then none else some (unquotePlus name, unquotePlus value)

/-- Embeds `TorrentValidator.validate_magnet_structure` (torrent_validator.py
lines 105-144).  parse_qs only creates keys holding at least one value, so the
source's dead "Valeur xt vide" branch collapses into the missing-xt test; the
display-name branch only logs and has no effect on the verdict. -/
def validate_magnet_structure (m : List Char) : Bool × List Char :=
  let sq := urlsplitQuery m
  if sq.fst ≠ str "magnet" then (false, str "Schema non-magnet detecte")
  else
    let params := parse_qsl sq.snd
    let xt_values := (params.filter fun p => p.fst = str "xt").map Prod.snd
    if xt_values = [] then (false, str "Parametre xt manquant")
    else if !(xt_values.any fun xt => xt.take 9 = str "urn:btih:") then
      (false, str "Format urn btih manquant")
    else (true, str "Structure magnet valide")

/-- The literal head of magnet_pattern (torrent_validator.py line 19). -/
def magnetHead : List Char := str "magnet:?xt=urn:btih:"

/-- Embeds `magnet_pattern.search`: the regex is anchored at the start of the
string, so it matches exactly when the link begins with the literal head
followed by 40 hex characters, capturing those characters. -/
def magnet_pattern_search (m : List Char) : Option (List Char) :=
  let body := (m.drop 20).take 40
  if m.take 20 = magnetHead ∧ body.length = 40 ∧ body.all isHexChar
  then some body else none

/-- The validation cache: an insertion-ordered association list keyed by the
magnet link (the md5 digest used as key in the source is modelled by the link
itself, an injective key). -/
abbrev VCache := List (List Char × (Bool × List Char))

def cacheLookup (cache : VCache) (k : List Char) : Option (Bool × List Char) :=
  (cache.find? fun e => e.fst = k).map Prod.snd

/-- Embeds `TorrentValidator._cache_result` (torrent_validator.py lines
229-238): when the cache is full the 100 oldest entries are evicted, then the
new verdict is appended. -/
def cache_result (cache : VCache) (k : List Char) (v : Bool × List Char) : VCache :=
  (if 1000 ≤ cache.length then cache.drop 100 else cache) ++ [(k, v)]

structure ExtractResult where
  ok : Bool
  hash : Option (List Char)
  msg : List Char
deriving DecidableEq, Repr

/-- Embeds `TorrentValidator.extract_hash_from_magnet` (torrent_validator.py
lines 60-103), threading the verdict cache.  On a cache hit with a positive
verdict the source re-runs the regex and returns the raw capture; on a miss it
validates and returns the lower-cased capture. -/
def extract_hash_from_magnet (blacklist : List (List Char)) (cache : VCache)
    (magnet_link : List Char) : ExtractResult × VCache :=
  if magnet_link = [] then (⟨false, none, str "Magnet link vide"⟩, cache)
  else
    match cacheLookup cache magnet_link with
    | some cached =>
      if cached.fst then
        match magnet_pattern_search magnet_link with
        | some g => (⟨true, some g, cached.snd⟩, cache)
        | none => (⟨true, none, cached.snd⟩, cache)
      else (⟨false, none, cached.snd⟩, cache)
    | none =>
      if magnet_link.take 7 ≠ str "magnet:" then
        let e := str "Schema invalide (attendu: magnet:)"
        (⟨false, none, e⟩, cache_result cache magnet_link (false, e))
      else
        match magnet_pattern_search magnet_link with
        | none =>
          let e := str "Format magnet invalide ou hash manquant"
          (⟨false, none, e⟩, cache_result cache magnet_link (false, e))
        | some extracted =>
          let hv := validate_sha1_hash blacklist extracted
          if hv.fst = false then
            let e := str "Hash invalide: " ++ hv.snd
            (⟨false, none, e⟩, cache_result cache magnet_link (false, e))
          else
            let mv := validate_magnet_structure magnet_link
            if mv.fst = false then
              (⟨false, none, mv.snd⟩, cache_result cache magnet_link (false, mv.snd))
            else
              (⟨true, some (pyLower extracted), str "Magnet link valide"⟩,
                cache_result cache magnet_link (true, str "Magnet link valide"))

/-- The display-name URL cleanup of `construct_magnet_from_hash`
(torrent_validator.py line 161): spaces become %20, ampersands %26. -/
def safe_name (n : List Char) : List Char :=
  (n.flatMap fun c => if c = ' ' then str "%20" else [c]).flatMap
    fun c => if c = '&' then str "%26" else [c]

/-- Embeds `TorrentValidator.construct_magnet_from_hash`
(torrent_validator.py lines 146-170). -/
def construct_magnet_from_hash (blacklist : List (List Char))
    (hash_str display_name : List Char) : Bool × Option (List Char) × List Char :=
  let hv := validate_sha1_hash blacklist hash_str
  if hv.fst = false then (false, none, str "Hash invalide: " ++ hv.snd)
  else
    let hash_clean := pyLower (pyStrip hash_str)
    let m0 := str "magnet:?xt=urn:btih:" ++ hash_clean
    let m := if display_name ≠ [] then m0 ++ str "&dn=" ++ safe_name display_name else m0
    let mv := validate_magnet_structure m
    if mv.fst = false then (false, none, str "Magnet construit invalide: " ++ mv.snd)
    else (true, some m, str "Magnet link construit avec succes")

/-- A hash accepted by validate_sha1_hash despite a leading space: the
validator strips before checking. -/
def C6hash : List Char := str " 0123456789abcdef0123456789abcdef01234567"

def C6name : List Char := str "My Name"

/-- A magnet link whose hash body is written in upper case. -/
def C7magnet : List Char := str "magnet:?xt=urn:btih:ABCDEF0123456789ABCDEF0123456789ABCDEF01"

/-! ### Claim C4: reinjection of a torrent with an invalid hash -/

/-- Python's substring operator `needle in hay`. -/
def containsSubstr (needle hay : List Char) : Bool :=
  (List.range (hay.length + 1)).any fun i =>
    decide ((hay.drop i).take needle.length = needle)

/-- Embeds `TorrentManager._classify_api_error` (torrent_manager.py lines
852-863). -/
def classify_api_error (api_error : List Char) : List Char :=
  let el := pyLower api_error
  if containsSubstr (str "infringing_file") el then str "infringing_file"
  else if containsSubstr (str "too_many_requests") el then str "too_many_requests"
  else if containsSubstr (str "rate") el && containsSubstr (str "limit") el then
    str "too_many_requests"
  else str "unknown"

/-- Embeds `TorrentManager._handle_post_failure` (torrent_manager.py lines
826-850) together with `FailureHandler.handle_failure` dispatch.  The
infringing-file path touches the filesystem and downstream indexers, which are
outside the store; it is passed in as an explicit collaborator. -/
def handle_post_failure (db : Store) (now : Int) (infringing_effect : Store → Store)
    (t : TorrentRow) (api_error : List Char) : Store :=
  let error_type := classify_api_error api_error
  if error_type = str "infringing_file" then infringing_effect db
  else if error_type = str "too_many_requests" then
    (handle_rate_limit db now t.id t.filename api_error).fst
  else db

structure ReinjectResult where
  db : Store
  ok : Bool
  message : List Char
  provider_called : Bool
deriving DecidableEq, Repr

/-- Embeds `TorrentManager.reinject_torrent` (torrent_manager.py lines
484-578).  The provider is the `add_magnet` oracle returning (success,
response, error); `provider_called` records whether it was invoked.  On the
invalid-hash and invalid-magnet paths the source populates the AttemptRecord
object but returns without calling `record_attempt`, so the store is returned
unchanged there. -/
def reinject_torrent (blacklist : List (List Char)) (dry_run : Bool)
    (add_magnet : List Char → Bool × List Char × List Char)
    (response_ms : Int) (infringing_effect : Store → Store)
    (db : Store) (now : Int) (t : TorrentRow) : ReinjectResult :=
  let hv := validate_sha1_hash blacklist t.hash
  if hv.fst = false then
    { db := db, ok := false, message := str "Hash invalide: " ++ hv.snd,
      provider_called := false }
  else
    let mv := construct_magnet_from_hash blacklist t.hash t.filename
    if mv.fst = false then
      { db := db, ok := false, message := str "Magnet invalide: " ++ mv.snd.snd,
        provider_called := false }
    else if dry_run then
      { db := record_attempt db
          { torrent_id := t.id, attempt_date := now, success := true,
            error_message := [], response_time_ms := response_ms,
            api_response := str "DRY-RUN simulation" },
        ok := true, message := str "Simulation reussie", provider_called := false }
    else
      let api := add_magnet (mv.snd.fst.getD [])
      if api.fst then
        { db := record_attempt db
            { torrent_id := t.id, attempt_date := now, success := true,
              error_message := [], response_time_ms := response_ms,
              api_response := api.snd.fst },
          ok := true, message := str "Reinjection reussie", provider_called := true }
      else
        let db1 := record_attempt db
            { torrent_id := t.id, attempt_date := now, success := false,
              error_message := str "Echec API: " ++ api.snd.snd,
              response_time_ms := response_ms, api_response := api.snd.snd }
        { db := handle_post_failure db1 now infringing_effect t api.snd.snd,
          ok := false, message := str "Echec API: " ++ api.snd.snd,
          provider_called := true }

/-- A stored torrent whose hash fails validation. -/
def C4torrent : TorrentRow :=
  { id := str "T9", hash := str "xyz", filename := str "Bad Torrent",
    status := str "error", size := 1, added_date := 0, first_seen := 0,
    last_seen := 0, attempts_count := 0, last_attempt := none,
    last_success := none, priority := 2, metadata := [],
    needs_symlink_cleanup := false }

def C4store : Store := { torrents := [C4torrent], attempts := [], retry_queue := [] }

/-! ### UnifiedRateLimiter (unified_rate_limiter.py)

Claims C2 and C8.  The sliding window is the list of admission timestamps in
insertion order; only the timestamp field of APICall matters to either claim.
All acquisitions run under the limiter's (held) lock, so an execution is a
sequence of loop iterations at nondecreasing wall-clock times. -/

/-- The pruning loop of acquire_slot (unified_rate_limiter.py lines 66-69):
pop entries older than sixty seconds from the front of the window. -/
def pruneWindow (now : Int) (w : List Int) : List Int :=
  w.dropWhile (fun ts => decide (ts < now - 60))

/-- One admission check of acquire_slot (lines 71-86): prune, then admit and
append the call when the window has room. -/
def rlStep (max_calls_per_minute : Nat) (w : List Int) (now : Int) : List Int × Bool :=
  let w1 := pruneWindow now w
  if w1.length < max_calls_per_minute then (w1 ++ [now], true) else (w1, false)

/-- The window left after a sequence of admission checks. -/
def rlWindow (maxC : Nat) (w : List Int) : List Int → List Int
  | [] => w
  | t :: ts => rlWindow maxC (rlStep maxC w t).fst ts

/-- The timestamps of the admitted checks in a sequence. -/
def admittedTimes (maxC : Nat) (w : List Int) : List Int → List Int
  | [] => []
  | t :: ts =>
    if (rlStep maxC w t).snd then t :: admittedTimes maxC (rlStep maxC w t).fst ts
    else admittedTimes maxC (rlStep maxC w t).fst ts

/-! ### Claim C8: the lock is held across the sleep inside acquire_slot -/

/-- The observable events of one acquire_slot call.  In the source the whole
while-loop, including the asyncio.sleep at line 106, runs inside the
`async with self.lock` block entered at line 62. -/
inductive RLEvent where
  | lockAcquire
  | admitEvent
  | refuseEvent
  | sleepEvent
  | lockRelease
deriving DecidableEq, Repr

/-- The loop-body events of acquire_slot (lines 63-106) for a given schedule
of wake-up times: each iteration prunes the window, admits when there is
room, returns a timeout failure when the deadline has passed, and otherwise
sleeps and re-evaluates.  The time list bounds the modelled execution. -/
def acquireLoopEvents (maxC : Nat) (start timeout : Int) :
    List Int → List Int → List RLEvent
  | _, [] => []
  | w, t :: ts =>
    let w1 := pruneWindow t w
    if w1.length < maxC then [RLEvent.admitEvent]
    else if timeout < t - start then [RLEvent.refuseEvent]
    else RLEvent.sleepEvent :: acquireLoopEvents maxC start timeout w1 ts

/-- The full event trace of acquire_slot: the lock is taken on entry and is
released only when the function returns. -/
def acquire_slot_events (maxC : Nat) (start timeout : Int) (w : List Int)
    (times : List Int) : List RLEvent :=
  RLEvent.lockAcquire ::
    (acquireLoopEvents maxC start timeout w times ++ [RLEvent.lockRelease])

/-- Whether the limiter's lock is held when the event at index i occurs. -/
def lockHeldAt (tr : List RLEvent) (i : Nat) : Bool :=
  decide ((tr.take i).count RLEvent.lockRelease < (tr.take i).count RLEvent.lockAcquire)

/-! ### Claim C9: resumable symlink walk (enhanced_symlink_manager.py) -/

/-- The persisted scan state (enhanced_symlink_manager.py lines 21-30). -/
structure SymlinkProcessingState where
  current_directory : List Char
  current_index : Nat
  total_directories : Nat
  total_symlinks_found : Nat
  total_processed : Nat
  last_scan_date : Option Int
  scan_in_progress : Bool
deriving DecidableEq, Repr

/-- Python list.index as an option (first occurrence). -/
def listIndex (a : List Char) : List (List Char) → Option Nat
  | [] => none
  | x :: xs => if x = a then some 0 else (listIndex a xs).map (· + 1)

/-- The resume-position computation of perform_full_scan (lines 166-174):
the index of the recorded directory, or 0 when the record is empty or the
directory is gone (ValueError fallback). -/
def startIndex (dirs : List (List Char)) (st : SymlinkProcessingState) : Nat :=
  if st.current_directory ≠ [] then
    match listIndex st.current_directory dirs with
    | some i => i
    | none => 0
  else 0

/-- Embeds should_rescan (lines 133-149): rescan when never scanned, when
more than 24 hours have elapsed, or when the previous scan was incomplete. -/
def should_rescan (st : SymlinkProcessingState) (now : Int) : Bool :=
  match st.last_scan_date with
  | none => true
  | some d =>
    if decide (24 * 3600 < now - d) then true
    else if st.scan_in_progress || decide (st.current_index = 0) then true
    else false

/-- The directories visited by one perform_full_scan run started from state
st: the loop at line 177 iterates over dirs[start:]. -/
def scannedDirs (dirs : List (List Char)) (st : SymlinkProcessingState) :
    List (List Char) :=
  dirs.drop (startIndex dirs st)

/-- The state persisted by the per-directory _save_state (lines 178-180)
before directory i is scanned: scan_in_progress and last_scan_date were set
at lines 155-157, total_directories at line 161. -/
def perDirState (dirs : List (List Char)) (st : SymlinkProcessingState)
    (now : Int) (i : Nat) : SymlinkProcessingState :=
  { st with
    current_directory := dirs.getD i [], current_index := i,
    total_directories := dirs.length, scan_in_progress := true,
    last_scan_date := some now }

/-- The on-disk state after a run over dirs from st is interrupted once j
directories (j ≥ 1) have completed: the save for the j-th visited directory
happened just before its scan, and no later save ran. -/
def interruptedState (dirs : List (List Char)) (st : SymlinkProcessingState)
    (now : Int) (j : Nat) : SymlinkProcessingState :=
  perDirState dirs st now (startIndex dirs st + j - 1)

def C9dirs : List (List Char) := [str "A", str "B", str "C", str "D", str "E"]

def C9st0 : SymlinkProcessingState :=
  { current_directory := [], current_index := 0, total_directories := 0,
    total_symlinks_found := 0, total_processed := 0, last_scan_date := none,
    scan_in_progress := false }

/-! ### Claim C10: extracting the torrent name from a symlink target
(symlink_checker.py) -/

/-- Attempt to match the zurg regex of symlink_checker.py line 39 at the head
of the string: the literal /home/, a non-empty slash-free segment, the
literal /seedbox/zurg/torrents/, then the captured non-empty slash-free name
followed by a slash.  The character class cannot cross a slash, so the greedy
quantifier is the maximal slash-free run. -/
def zurgMatchAt (l : List Char) : Option (List Char) :=
  if l.take 6 = str "/home/" then
    let r1 := l.drop 6
    let seg1 := r1.takeWhile (fun c => decide (c ≠ '/'))
    if seg1 = [] then none
    else
      let r2 := r1.drop seg1.length
      if r2.take 23 = str "/seedbox/zurg/torrents/" then
        let r3 := r2.drop 23
        let name := r3.takeWhile (fun c => decide (c ≠ '/'))
        if name = [] then none
        else if (r3.drop name.length).take 1 = str "/" then some name
        else none
      else none
  else none

/-- re.search over the unanchored zurg pattern: the first start position at
which the pattern matches. -/
def zurgSearch : List Char → Option (List Char)
  | [] => none
  | c :: rest =>
    match zurgMatchAt (c :: rest) with
    | some n => some n
    | none => zurgSearch rest

/-- pathlib PurePosixPath parts: a root marker for absolute paths, then the
non-empty segments with single dots removed. -/
def pythonPathParts (cs : List Char) : List (List Char) :=
  (if cs.take 1 = str "/" then [str "/"] else []) ++
    (splitOnChar '/' cs).filter (fun p => decide (p ≠ [] ∧ p ≠ str "."))

/-- The fallback loop of _extract_torrent_name (symlink_checker.py lines
122-128): the first `torrents` part that has a following part. -/
def partsLoopFind : List (List Char) → Option (List Char)
  | [] => none
  | [_] => none
  | p :: n :: rest => if p = str "torrents" then some n else partsLoopFind (n :: rest)

/-- Embeds `SymlinkChecker._extract_torrent_name` (symlink_checker.py lines
115-130): first the zurg regex search, then the parts loop, then the literal
"unknown". -/
def extract_torrent_name (target_path : List Char) : List Char :=
  match zurgSearch target_path with
  | some n => n
  | none =>
    match partsLoopFind (pythonPathParts target_path) with
    | some n => n
    | none => str "unknown"

/-- os.path.basename for POSIX paths. -/
def pyBasename (cs : List Char) : List Char :=
  (cs.reverse.takeWhile (fun c => decide (c ≠ '/'))).reverse

/-- os.path.dirname for POSIX paths. -/
def pyDirname (cs : List Char) : List Char :=
  let tail := cs.reverse.takeWhile (fun c => decide (c ≠ '/'))
  let head := cs.take (cs.length - tail.length)
  if head ≠ [] ∧ ¬(head.all fun c => decide (c = '/')) then
    (head.reverse.dropWhile (fun c => decide (c = '/'))).reverse
  else head

/-- Embeds the backend rewrite of the extractor
(src/backend/app/services/symlink_service.py lines 79-92), the variant that
implements the parent-directory fallback the claim describes. -/
def backend_extract_torrent_name (target_path : List Char) : List Char :=
  let parts := splitOnChar '/' target_path
  match listIndex (str "torrents") parts with
  | some i =>
    if i + 1 < parts.length then parts.getD (i + 1) []
    else pyBasename (pyDirname target_path)
  | none => pyBasename (pyDirname target_path)

theorem splitOnChar_ne_nil (c : Char) (l : List Char) : splitOnChar c l ≠ [] := by
  cases l with
  | nil => simp [splitOnChar]
  | cons x xs =>
    simp only [splitOnChar]
    split
    · simp
    · split <;> simp_all

/-- Splitting distributes over concatenation at a separator boundary. -/
theorem splitOnChar_append (c : Char) (a b : List Char) :
    splitOnChar c (a ++ c :: b) = splitOnChar c a ++ splitOnChar c b := by
  induction a with
  | nil => simp [splitOnChar]
  | cons x xs ih =>
    by_cases hx : x = c
    · simp [splitOnChar, hx, ih]
    · rw [List.cons_append]
      simp only [splitOnChar, if_neg hx]
      rw [ih]
      cases h : splitOnChar c xs with
      | nil => exact absurd h (splitOnChar_ne_nil c xs)
      | cons g gs => simp [h]

/-- A separator-free string splits into a single field. -/
theorem splitOnChar_of_not_mem (c : Char) (a : List Char) (h : c ∉ a) :
    splitOnChar c a = [a] := by
  induction a with
  | nil => simp [splitOnChar]
  | cons x xs ih =>
    simp only [List.mem_cons, not_or] at h
    simp only [splitOnChar]
    rw [if_neg (fun hxc : x = c => h.1 hxc.symm), ih h.2]

theorem breakOnChar_of_not_mem (c : Char) (a : List Char) (h : c ∉ a) :
    breakOnChar c a = (a, none) := by
  induction a with
  | nil => simp [breakOnChar]
  | cons x xs ih =>
    simp only [List.mem_cons, not_or] at h
    simp only [breakOnChar]
    rw [if_neg (fun hxc : x = c => h.1 hxc.symm), ih h.2]

/-- Breaking at the first separator occurrence. -/
theorem breakOnChar_append (c : Char) (a b : List Char) (h : c ∉ a) :
    breakOnChar c (a ++ c :: b) = (a, some b) := by
  induction a with
  | nil => simp [breakOnChar]
  | cons x xs ih =>
    simp only [List.mem_cons, not_or] at h
    rw [List.cons_append]
    simp only [breakOnChar]
    rw [if_neg (fun hxc : x = c => h.1 hxc.symm), ih h.2]

/-! ### Claim C1: get_failed_torrents filter and ordering -/

theorem failedLe_trans (a b c : TorrentRow)
    (hab : failedLe a b = true) (hbc : failedLe b c = true) : failedLe a c = true := by
  simp only [failedLe, Bool.or_eq_true, Bool.and_eq_true, decide_eq_true_eq] at *
  omega

theorem failedLe_total (a b : TorrentRow) : (failedLe a b || failedLe b a) = true := by
  simp only [failedLe, Bool.or_eq_true, Bool.and_eq_true, decide_eq_true_eq]
  omega

theorem failedFilter_true_iff (now : Int) (t : TorrentRow) :
    failedFilter now true t = true ↔
      t.status ∈ failedQueryStatuses ∧ t.attempts_count < max_retry_attempts ∧
        (t.last_attempt = none ∨
          ∃ a, t.last_attempt = some a ∧ a < now - retry_delay_seconds) := by
  cases h : t.last_attempt <;>
    simp [failedFilter, h, and_assoc]

/-- Claim C1 (amended): for every store state and time, the rows returned by
`get_failed_torrents(exclude_recent_attempts = true)` are exactly the torrents
whose status lies in the set actually queried — magnet_error, error, virus,
dead, WITHOUT symlink_broken — whose attempts_count is strictly below
MAX_ATTEMPTS (3) and whose last_attempt is absent or older than the 3-hour
retry hold, ordered by priority descending then last_seen descending. -/
theorem C1_get_failed_torrents_spec (db : Store) (now : Int) :
    (∀ t, t ∈ get_failed_torrents db now true ↔
        t ∈ db.torrents ∧
          t.status ∈ failedQueryStatuses ∧
          t.attempts_count < max_retry_attempts ∧
          (t.last_attempt = none ∨
            ∃ a, t.last_attempt = some a ∧ a < now - retry_delay_seconds)) ∧
      (get_failed_torrents db now true).Pairwise (fun a b =>
        b.priority < a.priority ∨ (a.priority = b.priority ∧ b.last_seen ≤ a.last_seen)) := by
  constructor
  · intro t
    rw [get_failed_torrents, (List.mergeSort_perm _ _).mem_iff, List.mem_filter,
      failedFilter_true_iff]
  · have h := List.sorted_mergeSort failedLe_trans failedLe_total
      (db.torrents.filter (failedFilter now true))
    refine h.imp ?_
    intro a b hab
    simpa only [failedLe, Bool.or_eq_true, Bool.and_eq_true, decide_eq_true_eq] using hab

/-- Counterexample to claim C1 as stated: a stored torrent with status
`symlink_broken`, zero attempts and no prior attempt time satisfies every
condition of the claimed FAILED_SET = magnet_error, error, virus, dead,
symlink_broken, yet `get_failed_torrents` returns the empty list, because the
SQL filter omits `symlink_broken`. -/
theorem C1_counterexample :
    C1row ∈ C1store.torrents ∧
    C1row.status ∈ [str "magnet_error", str "error", str "virus", str "dead",
      str "symlink_broken"] ∧
    C1row.attempts_count < max_retry_attempts ∧
    C1row.last_attempt = none ∧
    get_failed_torrents C1store 1000000 true = [] := by
  refine ⟨by decide, by decide, by decide, by decide, ?_⟩
  have hf : C1store.torrents.filter (failedFilter 1000000 true) = [] := by decide
  rw [get_failed_torrents, hf, List.mergeSort_nil]

/-- Counterexample to claim C3 as stated: promoting a matched torrent whose id
already exists with priority 2 leaves the stored priority at 2 (the upsert
UPDATE branch never writes priority), while the status does become
`symlink_broken`. -/
theorem C3_counterexample :
    ((promote_symlink_broken C3store 9 C3matched []).torrents.map
      (fun t => (t.status, t.priority))) = [(str "symlink_broken", 2)] ∧
    (2 : Int) ≠ 3 := by
  constructor
  · decide
  · decide

/-- Claim C3 (amended): after a Correlator promotion the stored row always has
status `symlink_broken`; a newly inserted row receives priority 3, but a
pre-existing row keeps whatever priority it had, because the upsert UPDATE
branch does not touch the priority column. -/
theorem C3_promotion (db : Store) (now : Int) (t : TorrentRow) (meta : List Char) :
    ((∀ r ∈ db.torrents, r.id ≠ t.id) →
      ∃ nr ∈ (promote_symlink_broken db now t meta).torrents,
        nr.id = t.id ∧ nr.status = str "symlink_broken" ∧ nr.priority = 3) ∧
    (∀ r ∈ db.torrents, r.id = t.id →
      ∃ nr ∈ (promote_symlink_broken db now t meta).torrents,
        nr.id = t.id ∧ nr.status = str "symlink_broken" ∧ nr.priority = r.priority) := by
  constructor
  · intro h
    rw [promote_symlink_broken, upsert_torrent, if_neg]
    · refine ⟨_, List.mem_append_right _ (List.mem_singleton.mpr rfl), rfl, rfl, rfl⟩
    · simp only [List.any_eq_true, decide_eq_true_eq, not_exists]
      intro r
      intro hcon
      exact absurd hcon.2 (h r hcon.1)
  · intro r hr hid
    rw [promote_symlink_broken, upsert_torrent, if_pos]
    · refine ⟨_, List.mem_map.mpr ⟨r, hr, rfl⟩, ?_⟩
      rw [if_pos hid]
      exact ⟨hid, rfl, rfl⟩
    · exact List.any_eq_true.mpr ⟨r, hr, by simpa using hid⟩

/-- Witness for C3_promotion: the fresh-insert branch on an empty store and
the update branch on a store already holding the id with priority 2. -/
theorem C3_promotion_witness :
    (∃ nr ∈ (promote_symlink_broken C3freshStore 9 C3matched []).torrents,
      nr.id = C3matched.id ∧ nr.status = str "symlink_broken" ∧ nr.priority = 3) ∧
    (∃ nr ∈ (promote_symlink_broken C3store 9 C3matched []).torrents,
      nr.id = C3matched.id ∧ nr.status = str "symlink_broken" ∧
        nr.priority = C3existing.priority) :=
  ⟨(C3_promotion C3freshStore 9 C3matched []).1 (by decide),
   (C3_promotion C3store 9 C3matched []).2 C3existing (by decide) (by decide)⟩

/-! ### Claim C5: rate-limit failures are deferred, torrents untouched -/

theorem find?_filter_not {α : Type} (p : α → Bool) (l : List α) :
    (l.filter (fun a => !(p a))).find? p = none :=
  List.find?_eq_none.mpr fun a ha => by
    have h := List.mem_filter.mp ha
    simp_all

/-- Claim C5: on a too_many_requests failure the FailureHandler inserts or
replaces the RetryQueue row for (torrent_id, too_many_requests) with
scheduled_retry = now + 3 hours and retry_count = 0, and leaves the torrents
and attempts tables unchanged. -/
theorem C5_rate_limit_defers (db : Store) (now : Int) (tid fn msg : List Char) :
    retryLookup (handle_rate_limit db now tid fn msg).fst tid (str "too_many_requests") =
      some { torrent_id := tid, filename := fn,
             error_type := str "too_many_requests", error_message := msg,
             original_failure := now, scheduled_retry := now + 3 * 3600,
             retry_count := 0, last_retry_attempt := none } ∧
    (handle_rate_limit db now tid fn msg).fst.torrents = db.torrents ∧
    (handle_rate_limit db now tid fn msg).fst.attempts = db.attempts := by
  refine ⟨?_, rfl, rfl⟩
  show (schedule_retry db now tid fn (str "too_many_requests") (now + 3 * 3600)
      msg).retry_queue.find? _ = _
  rw [schedule_retry]
  rw [List.find?_append, find?_filter_not]
  simp [List.find?]

/-! ### Character and parsing lemmas for the round-trip claims -/

theorem toLower_toLower (c : Char) : c.toLower.toLower = c.toLower := by
  have key : ∀ k : Nat, 65 ≤ k → k ≤ 90 → (Char.ofNat (k + 32)).toNat = k + 32 := by
    intro k h1 h2
    have h : k + 32 < 55296 := by omega
    simp [Char.ofNat, Nat.isValidChar, h, Char.toNat, Char.ofNatAux, UInt32.toNat,
      BitVec.toNat_ofNatLt]
  simp only [Char.toLower]
  split
  · next h =>
    have hv := key c.toNat h.1 h.2
    rw [if_neg (by omega)]
  · rfl

theorem pyLower_pyLower (l : List Char) : pyLower (pyLower l) = pyLower l := by
  simp only [pyLower, List.map_map]
  exact List.map_congr_left fun c _ => toLower_toLower c

theorem dropWhile_eq_self_of_all {p : Char → Bool} (l : List Char)
    (h : ∀ c ∈ l, p c = false) : l.dropWhile p = l := by
  cases l with
  | nil => rfl
  | cons x xs => simp [List.dropWhile, h x (List.mem_cons_self x xs)]

theorem pyStrip_eq_self (l : List Char) (h : ∀ c ∈ l, isPySpace c = false) :
    pyStrip l = l := by
  rw [pyStrip, dropWhile_eq_self_of_all l h,
    dropWhile_eq_self_of_all l.reverse (fun c hc => h c (List.mem_reverse.mp hc)),
    List.reverse_reverse]

theorem mem_of_all_hex {hc : List Char} (hall : hc.all isHexChar = true) :
    ∀ c ∈ hc, isHexChar c = true := fun c hm => List.all_eq_true.mp hall c hm

theorem hex_no_space {hc : List Char} (hall : hc.all isHexChar = true) :
    ∀ c ∈ hc, isPySpace c = false := by
  intro c hm
  have hx := mem_of_all_hex hall c hm
  by_contra hsp
  rw [Bool.not_eq_false] at hsp
  simp only [isPySpace, Bool.or_eq_true, decide_eq_true_eq] at hsp
  rcases hsp with ((((h | h) | h) | h) | h) | h <;> subst h <;>
    exact absurd hx (by decide)

theorem not_mem_of_all_hex {hc : List Char} (hall : hc.all isHexChar = true)
    (c0 : Char) (hc0 : isHexChar c0 = false) : c0 ∉ hc := fun hm => by
  have hx := mem_of_all_hex hall c0 hm
  rw [hx] at hc0
  exact Bool.noConfusion hc0

theorem mem_breakOnChar_fst {c x : Char} : ∀ {l : List Char},
    x ∈ (breakOnChar c l).fst → x ∈ l := by
  intro l
  induction l with
  | nil => simp [breakOnChar]
  | cons y ys ih =>
    simp only [breakOnChar]
    split
    · simp
    · intro hm
      rcases List.mem_cons.mp hm with h | h
      · exact h ▸ List.mem_cons_self y ys
      · exact List.mem_cons_of_mem y (ih h)

theorem breakOnChar_fst_append (c : Char) (A B : List Char) (h : c ∉ A) :
    (breakOnChar c (A ++ B)).fst = A ++ (breakOnChar c B).fst := by
  induction A with
  | nil => simp
  | cons x xs ih =>
    simp only [List.mem_cons, not_or] at h
    rw [List.cons_append]
    simp only [breakOnChar]
    rw [if_neg (fun hxc : x = c => h.1 hxc.symm)]
    simp only [List.cons_append]
    rw [ih h.2]

theorem safe_name_no_amp (n : List Char) : '&' ∉ safe_name n := by
  intro hm
  rw [safe_name] at hm
  rcases List.mem_flatMap.mp hm with ⟨a, _, hmem⟩
  by_cases ha : a = '&'
  · rw [if_pos ha] at hmem
    simp [str] at hmem
  · rw [if_neg ha] at hmem
    exact ha (List.mem_singleton.mp hmem).symm

theorem pctDecode_cons_ne (c : Char) (rest : List Char) (h : c ≠ '%') :
    pctDecode (c :: rest) = c :: pctDecode rest := by
  rw [pctDecode.eq_def]
  split
  · next heq => simp at heq
  · next a b r heq =>
    injection heq with e1 e2
    exact absurd e1 h
  · next c2 r2 heq =>
    injection heq with e1 e2
    rw [e1, e2]

theorem pctDecode_eq_self (l : List Char) (h : '%' ∉ l) : pctDecode l = l := by
  induction l with
  | nil => rfl
  | cons x xs ih =>
    simp only [List.mem_cons, not_or] at h
    rw [pctDecode_cons_ne x xs (fun hx => h.1 hx.symm), ih h.2]

theorem unquotePlus_eq_self (l : List Char) (hp : '+' ∉ l) (hpc : '%' ∉ l) :
    unquotePlus l = l := by
  rw [unquotePlus]
  have hmap : (l.map fun c => if c = '+' then ' ' else c) = l := by
    have h1 : (l.map fun c => if c = '+' then ' ' else c) = l.map id :=
      List.map_congr_left fun c hcm => by
        rw [if_neg (fun hcp : c = '+' => hp (hcp ▸ hcm))]; rfl
    rw [h1, List.map_id]
  rw [hmap, pctDecode_eq_self l hpc]

theorem validate_sha1_hash_spec (bl : List (List Char)) (h : List Char)
    (hok : (validate_sha1_hash bl h).fst = true) :
    (pyLower (pyStrip h)).length = 40 ∧
    (pyLower (pyStrip h)).all isHexChar = true ∧
    pyLower (pyStrip h) ∉ bl ∧
    pyLower (pyStrip h) ≠ List.replicate 40 '0' ∧
    3 ≤ (pyLower (pyStrip h)).dedup.length := by
  simp only [validate_sha1_hash, min_hash_length] at hok
  split_ifs at hok with h1 h2 h3 h4 h5 h6
  all_goals
    first
      | exact absurd hok (by decide)
      | exact ⟨by omega, by simpa using h3, h4, h5, by omega⟩

theorem clean_idem (h : List Char)
    (hall : (pyLower (pyStrip h)).all isHexChar = true) :
    pyLower (pyStrip (pyLower (pyStrip h))) = pyLower (pyStrip h) := by
  rw [pyStrip_eq_self (pyLower (pyStrip h)) (hex_no_space hall)]
  exact pyLower_pyLower (pyStrip h)

theorem validate_sha1_hash_clean (h : List Char)
    (hok : (validate_sha1_hash [] h).fst = true) :
    validate_sha1_hash [] (pyLower (pyStrip h)) = (true, str "Hash SHA1 valide") := by
  obtain ⟨hlen, hall, _, hzero, hded⟩ := validate_sha1_hash_spec [] h hok
  have hne : pyLower (pyStrip h) ≠ [] := by
    intro he
    rw [he] at hlen
    simp at hlen
  simp only [validate_sha1_hash, min_hash_length, if_neg hne, clean_idem h hall]
  rw [if_neg (by omega), if_neg (by simp [hall]), if_neg (by simp),
    if_neg hzero, if_neg (by omega)]

theorem urlsplitQuery_magnet (Y : List Char) :
    urlsplitQuery (str "magnet:" ++ '?' :: Y) =
      (str "magnet", (breakOnChar '#' Y).fst) := by
  have hb : breakOnChar ':' (str "magnet:" ++ '?' :: Y) = (str "magnet", some ('?' :: Y)) := by
    have he : str "magnet:" ++ '?' :: Y = str "magnet" ++ ':' :: ('?' :: Y) := rfl
    rw [he]
    exact breakOnChar_append ':' (str "magnet") ('?' :: Y) (by decide)
  have hs : urlSchemeSplit (str "magnet:" ++ '?' :: Y) = (str "magnet", '?' :: Y) := by
    simp only [urlSchemeSplit, hb]
    rw [if_pos ⟨by decide, by decide, by decide⟩]
    rw [show pyLower (str "magnet") = str "magnet" from by decide]
  have h3 : breakOnChar '#' ('?' :: Y) =
      ('?' :: (breakOnChar '#' Y).fst, (breakOnChar '#' Y).snd) := by
    simp [breakOnChar]
  simp only [urlsplitQuery, hs, h3]
  rw [if_neg (by simp [str])]
  simp [breakOnChar]

theorem parse_qsl_xt_head (hc D : List Char)
    (hall : hc.all isHexChar = true)
    (hD : D = [] ∨ ∃ D2, D = '&' :: D2 ∧ '&' ∉ D2) :
    ∃ rest, parse_qsl (str "xt=urn:btih:" ++ hc ++ D) =
      (str "xt", str "urn:btih:" ++ hc) :: rest := by
  have hampF : '&' ∉ str "xt=urn:btih:" ++ hc := by
    intro hm
    rcases List.mem_append.mp hm with h | h
    · exact absurd h (by decide)
    · exact not_mem_of_all_hex hall '&' (by decide) h
  have hfield : breakOnChar '=' (str "xt=urn:btih:" ++ hc) =
      (str "xt", some (str "urn:btih:" ++ hc)) := by
    have he : str "xt=urn:btih:" ++ hc = str "xt" ++ '=' :: (str "urn:btih:" ++ hc) := rfl
    rw [he]
    exact breakOnChar_append '=' (str "xt") _ (by decide)
  have hval : unquotePlus (str "urn:btih:" ++ hc) = str "urn:btih:" ++ hc := by
    apply unquotePlus_eq_self
    · intro hm
      rcases List.mem_append.mp hm with h | h
      · exact absurd h (by decide)
      · exact not_mem_of_all_hex hall '+' (by decide) h
    · intro hm
      rcases List.mem_append.mp hm with h | h
      · exact absurd h (by decide)
      · exact not_mem_of_all_hex hall '%' (by decide) h
  have hsplit : ∃ tail, splitOnChar '&' (str "xt=urn:btih:" ++ hc ++ D) =
      (str "xt=urn:btih:" ++ hc) :: tail := by
    rcases hD with hnil | ⟨D2, hD2, hampD⟩
    · rw [hnil, List.append_nil, splitOnChar_of_not_mem '&' _ hampF]
      exact ⟨[], rfl⟩
    · rw [hD2, splitOnChar_append '&' _ D2, splitOnChar_of_not_mem '&' _ hampF]
      exact ⟨splitOnChar '&' D2, rfl⟩
  rcases hsplit with ⟨tail, htail⟩
  refine ⟨tail.filterMap (fun field =>
    match breakOnChar '=' field with
    | (_, none) => none
    | (name, some value) =>
      if value = [] then none else some (unquotePlus name, unquotePlus value)), ?_⟩
  rw [parse_qsl, htail, List.filterMap_cons]
  simp only [hfield]
  rw [if_neg (fun hcon : str "urn:btih:" ++ hc = [] =>
      absurd (List.append_eq_nil.mp hcon).1 (by decide)),
    show unquotePlus (str "xt") = str "xt" from by decide, hval]

theorem validate_magnet_structure_built (hc dnp : List Char)
    (hall : hc.all isHexChar = true)
    (hdnp : dnp = [] ∨ ∃ D2, dnp = '&' :: D2 ∧ '&' ∉ D2) :
    validate_magnet_structure (str "magnet:?xt=urn:btih:" ++ hc ++ dnp) =
      (true, str "Structure magnet valide") := by
  have he : str "magnet:?xt=urn:btih:" ++ hc ++ dnp =
      str "magnet:" ++ '?' :: (str "xt=urn:btih:" ++ hc ++ dnp) := rfl
  have hnomem : '#' ∉ str "xt=urn:btih:" ++ hc := by
    intro hm
    rcases List.mem_append.mp hm with h | h
    · exact absurd h (by decide)
    · exact not_mem_of_all_hex hall '#' (by decide) h
  have hfrag : (breakOnChar '#' (str "xt=urn:btih:" ++ hc ++ dnp)).fst =
      str "xt=urn:btih:" ++ hc ++ (breakOnChar '#' dnp).fst :=
    breakOnChar_fst_append '#' _ dnp hnomem
  have hD' : (breakOnChar '#' dnp).fst = [] ∨
      ∃ D2, (breakOnChar '#' dnp).fst = '&' :: D2 ∧ '&' ∉ D2 := by
    rcases hdnp with hnil | ⟨D2, hD2, hampD⟩
    · rw [hnil]
      exact Or.inl rfl
    · rw [hD2]
      refine Or.inr ⟨(breakOnChar '#' D2).fst, ?_, ?_⟩
      · simp [breakOnChar]
      · exact fun hm => hampD (mem_breakOnChar_fst hm)
  obtain ⟨rest, hqs⟩ :=
    parse_qsl_xt_head hc (breakOnChar '#' dnp).fst hall hD'
  simp only [validate_magnet_structure, he, urlsplitQuery_magnet, hfrag, hqs]
  rw [if_neg (by simp)]
  rw [List.filter_cons_of_pos (by simp)]
  rw [if_neg (by simp)]
  have htake : (str "urn:btih:" ++ hc).take 9 = str "urn:btih:" := by
    rw [show (9:Nat) = (str "urn:btih:").length from rfl, List.take_left]
  simp [htake]

theorem magnet_pattern_search_built (hc Z : List Char)
    (hlen : hc.length = 40) (hall : hc.all isHexChar = true) :
    magnet_pattern_search (str "magnet:?xt=urn:btih:" ++ hc ++ Z) = some hc := by
  have he : str "magnet:?xt=urn:btih:" ++ hc ++ Z = magnetHead ++ (hc ++ Z) := rfl
  have ht : (magnetHead ++ (hc ++ Z)).take 20 = magnetHead := by
    rw [show (20 : Nat) = magnetHead.length from rfl]
    exact List.take_left _ _
  have hd : (magnetHead ++ (hc ++ Z)).drop 20 = hc ++ Z := by
    rw [show (20 : Nat) = magnetHead.length from rfl]
    exact List.drop_left _ _
  have hb : ((magnetHead ++ (hc ++ Z)).drop 20).take 40 = hc := by
    rw [hd, ← hlen, List.take_left]
  rw [he]
  simp only [magnet_pattern_search, hb, ht]
  simp [hlen, hall]

/-- The dn tail appended by construct_magnet_from_hash is empty or starts
with an ampersand that does not recur. -/
theorem dn_tail_shape (n : List Char) :
    (if n ≠ [] then str "&dn=" ++ safe_name n else ([] : List Char)) = [] ∨
      ∃ D2, (if n ≠ [] then str "&dn=" ++ safe_name n else ([] : List Char)) = '&' :: D2 ∧
        '&' ∉ D2 := by
  by_cases hn : n = []
  · rw [if_neg (by simpa using hn)]
    exact Or.inl rfl
  · rw [if_pos hn]
    refine Or.inr ⟨str "dn=" ++ safe_name n, rfl, ?_⟩
    intro hm
    rcases List.mem_append.mp hm with h | h
    · exact absurd h (by decide)
    · exact safe_name_no_amp n h

set_option maxHeartbeats 1600000 in
/-- Claim C6 (amended): for every hash string accepted by validate_sha1_hash
and every display name, construct_magnet_from_hash succeeds, and
extract_hash_from_magnet applied (on a fresh validator) to the produced link
succeeds and returns the whitespace-stripped, lower-cased hash.  The original
claim promised exactly the lower-cased hash; validate_sha1_hash also accepts
whitespace-padded hashes, for which the stripped form is returned instead. -/
theorem C6_roundtrip (h n : List Char)
    (hok : (validate_sha1_hash [] h).fst = true) :
    (construct_magnet_from_hash [] h n).fst = true ∧
    ((construct_magnet_from_hash [] h n).snd.fst.map
        (fun m => (extract_hash_from_magnet [] [] m).fst)) =
      some ⟨true, some (pyLower (pyStrip h)), str "Magnet link valide"⟩ := by
  obtain ⟨hlen, hall, _, _, _⟩ := validate_sha1_hash_spec [] h hok
  set hc := pyLower (pyStrip h) with hhc
  set dnp := (if n ≠ [] then str "&dn=" ++ safe_name n else ([] : List Char)) with hdnp
  have hshape := dn_tail_shape n
  rw [← hdnp] at hshape
  have hmagnet : (if n ≠ [] then (str "magnet:?xt=urn:btih:" ++ hc) ++ str "&dn=" ++ safe_name n
      else str "magnet:?xt=urn:btih:" ++ hc) = str "magnet:?xt=urn:btih:" ++ hc ++ dnp := by
    by_cases hn : n = []
    · rw [hdnp, if_neg (by simpa using hn), if_neg (by simpa using hn), List.append_nil]
    · rw [hdnp, if_pos hn, if_pos hn]
      exact List.append_assoc _ _ _
  have hstruct := validate_magnet_structure_built hc dnp hall hshape
  have hstruct2 : validate_magnet_structure (str "magnet:?xt=urn:btih:" ++ (hc ++ dnp)) =
      (true, str "Structure magnet valide") := hstruct
  have hconstruct : construct_magnet_from_hash [] h n =
      (true, some (str "magnet:?xt=urn:btih:" ++ hc ++ dnp),
        str "Magnet link construit avec succes") := by
    simp only [construct_magnet_from_hash]
    rw [if_neg (by simp [hok]), ← hhc, hmagnet, if_neg (by simp [hstruct, hstruct2])]
  refine ⟨by rw [hconstruct], ?_⟩
  have hne : str "magnet:?xt=urn:btih:" ++ hc ++ dnp ≠ [] := by
    intro hcon
    have h0 := (List.append_eq_nil.mp hcon).1
    exact absurd (List.append_eq_nil.mp h0).1 (by decide)
  have htake7 : (str "magnet:?xt=urn:btih:" ++ hc ++ dnp).take 7 = str "magnet:" := by
    have he : str "magnet:?xt=urn:btih:" ++ hc ++ dnp =
        str "magnet:" ++ (str "?xt=urn:btih:" ++ (hc ++ dnp)) := rfl
    rw [he, show (7 : Nat) = (str "magnet:").length from rfl, List.take_left]
  have hsearch := magnet_pattern_search_built hc dnp hlen hall
  have hclean : validate_sha1_hash [] hc = (true, str "Hash SHA1 valide") :=
    validate_sha1_hash_clean h hok
  have hlow : pyLower hc = hc := by
    rw [hhc]
    exact pyLower_pyLower (pyStrip h)
  have hextract : (extract_hash_from_magnet [] []
        (str "magnet:?xt=urn:btih:" ++ hc ++ dnp)).fst =
      ⟨true, some hc, str "Magnet link valide"⟩ := by
    simp only [extract_hash_from_magnet, if_neg hne]
    rw [show cacheLookup [] (str "magnet:?xt=urn:btih:" ++ hc ++ dnp) = none from rfl]
    rw [htake7]
    simp only [hsearch, hclean, hstruct, hlow]
    simp
  have hextract2 : (extract_hash_from_magnet [] []
        (str "magnet:?xt=urn:btih:" ++ (hc ++ dnp))).fst =
      ⟨true, some hc, str "Magnet link valide"⟩ := hextract
  rw [hconstruct]
  simp [hextract, hextract2]

/-- Counterexample to claim C6 as stated: for this accepted hash the round
trip returns the stripped lower-cased hash, which differs from the
lower-cased hash (the claim's "exactly the lower-cased h"). -/
theorem C6_counterexample :
    (validate_sha1_hash [] C6hash).fst = true ∧
    ((construct_magnet_from_hash [] C6hash C6name).snd.fst.bind
        (fun m => (extract_hash_from_magnet [] [] m).fst.hash)) =
      some (str "0123456789abcdef0123456789abcdef01234567") ∧
    pyLower C6hash ≠ str "0123456789abcdef0123456789abcdef01234567" := by
  refine ⟨by decide, by decide, by decide⟩

/-- Witness for C6_roundtrip at a concrete accepted hash and display name. -/
theorem C6_roundtrip_witness :
    (construct_magnet_from_hash [] (str "0123456789abcdef0123456789abcdef01234567")
        (str "My Name")).fst = true ∧
    ((construct_magnet_from_hash [] (str "0123456789abcdef0123456789abcdef01234567")
        (str "My Name")).snd.fst.map
        (fun m => (extract_hash_from_magnet [] [] m).fst)) =
      some ⟨true,
        some (pyLower (pyStrip (str "0123456789abcdef0123456789abcdef01234567"))),
        str "Magnet link valide"⟩ :=
  C6_roundtrip (str "0123456789abcdef0123456789abcdef01234567") (str "My Name") (by decide)

/-! ### Claim C7: cache transparency of extract_hash_from_magnet -/

theorem cacheLookup_cache_result (cache : VCache) (m : List Char) (v : Bool × List Char)
    (hmiss : cacheLookup cache m = none) :
    cacheLookup (cache_result cache m v) m = some v := by
  have hfind : cache.find? (fun e => decide (e.fst = m)) = none := by
    rcases hfound : cache.find? (fun e => decide (e.fst = m)) with _ | e
    · exact hfound
    · rw [cacheLookup, hfound] at hmiss
      simp at hmiss
  rw [cacheLookup, cache_result, List.find?_append]
  have hdropped : (if 1000 ≤ cache.length then cache.drop 100 else cache).find?
      (fun e => decide (e.fst = m)) = none := by
    apply List.find?_eq_none.mpr
    intro x hx
    have hxc : x ∈ cache := by
      by_cases hlen : 1000 ≤ cache.length
      · rw [if_pos hlen] at hx
        exact List.mem_of_mem_drop hx
      · rw [if_neg hlen] at hx
        exact hx
    exact List.find?_eq_none.mp hfind x hxc
  rw [hdropped]
  simp [List.find?]

set_option maxHeartbeats 1600000 in
/-- Claim C7 (amended): repeating extract_hash_from_magnet on the same
validator returns the same ok flag and the same reason, and the same hash up
to lower-casing: the first (computing) call lower-cases the regex capture
while the second, cache-served call returns the capture as written in the
link.  The original claim of fully identical results fails when the link
carries an upper-case hash. -/
theorem C7_cache_replay (bl : List (List Char)) (cache : VCache) (m : List Char)
    (hmiss : cacheLookup cache m = none) :
    (extract_hash_from_magnet bl (extract_hash_from_magnet bl cache m).snd m).fst.ok =
        (extract_hash_from_magnet bl cache m).fst.ok ∧
    (extract_hash_from_magnet bl (extract_hash_from_magnet bl cache m).snd m).fst.msg =
        (extract_hash_from_magnet bl cache m).fst.msg ∧
    (extract_hash_from_magnet bl cache m).fst.hash =
        ((extract_hash_from_magnet bl
            (extract_hash_from_magnet bl cache m).snd m).fst.hash).map pyLower := by
  by_cases hm0 : m = []
  · subst hm0
    simp [extract_hash_from_magnet]
  by_cases hsch : m.take 7 = str "magnet:"
  case neg =>
    have h1 : extract_hash_from_magnet bl cache m =
        (⟨false, none, str "Schema invalide (attendu: magnet:)"⟩,
          cache_result cache m (false, str "Schema invalide (attendu: magnet:)")) := by
      simp only [extract_hash_from_magnet, if_neg hm0, hmiss]
      rw [if_pos hsch]
    have h2 := cacheLookup_cache_result cache m
      (false, str "Schema invalide (attendu: magnet:)") hmiss
    rw [h1]
    simp only [extract_hash_from_magnet, if_neg hm0, h2]
    simp
  case pos =>
    have hnne : ¬(m.take 7 ≠ str "magnet:") := fun hne => hne hsch
    rcases hsr : magnet_pattern_search m with _ | g
    · have h1 : extract_hash_from_magnet bl cache m =
          (⟨false, none, str "Format magnet invalide ou hash manquant"⟩,
            cache_result cache m (false, str "Format magnet invalide ou hash manquant")) := by
        simp only [extract_hash_from_magnet, if_neg hm0, hmiss, hsr]
        rw [if_neg hnne]
      have h2 := cacheLookup_cache_result cache m
        (false, str "Format magnet invalide ou hash manquant") hmiss
      rw [h1]
      simp only [extract_hash_from_magnet, if_neg hm0, h2]
      simp
    · by_cases hhv : (validate_sha1_hash bl g).fst = false
      · have h1 : extract_hash_from_magnet bl cache m =
            (⟨false, none, str "Hash invalide: " ++ (validate_sha1_hash bl g).snd⟩,
              cache_result cache m
                (false, str "Hash invalide: " ++ (validate_sha1_hash bl g).snd)) := by
          simp only [extract_hash_from_magnet, if_neg hm0, hmiss, hsr]
          rw [if_neg hnne, if_pos hhv]
        have h2 := cacheLookup_cache_result cache m
          (false, str "Hash invalide: " ++ (validate_sha1_hash bl g).snd) hmiss
        rw [h1]
        simp only [extract_hash_from_magnet, if_neg hm0, h2]
        simp
      · by_cases hmv : (validate_magnet_structure m).fst = false
        · have h1 : extract_hash_from_magnet bl cache m =
              (⟨false, none, (validate_magnet_structure m).snd⟩,
                cache_result cache m (false, (validate_magnet_structure m).snd)) := by
            simp only [extract_hash_from_magnet, if_neg hm0, hmiss, hsr]
            rw [if_neg hnne, if_neg hhv, if_pos hmv]
          have h2 := cacheLookup_cache_result cache m
            (false, (validate_magnet_structure m).snd) hmiss
          rw [h1]
          simp only [extract_hash_from_magnet, if_neg hm0, h2]
          simp
        · have h1 : extract_hash_from_magnet bl cache m =
              (⟨true, some (pyLower g), str "Magnet link valide"⟩,
                cache_result cache m (true, str "Magnet link valide")) := by
            simp only [extract_hash_from_magnet, if_neg hm0, hmiss, hsr]
            rw [if_neg hnne, if_neg hhv, if_neg hmv]
          have h2 := cacheLookup_cache_result cache m
            (true, str "Magnet link valide") hmiss
          rw [h1]
          simp only [extract_hash_from_magnet, if_neg hm0, h2, hsr]
          simp

/-- Counterexample to claim C7 as stated: the first call returns the
lower-cased hash, the second, cache-served call returns the raw upper-case
capture, so the two results differ. -/
theorem C7_counterexample :
    (extract_hash_from_magnet [] [] C7magnet).fst.hash =
      some (str "abcdef0123456789abcdef0123456789abcdef01") ∧
    (extract_hash_from_magnet []
        (extract_hash_from_magnet [] [] C7magnet).snd C7magnet).fst.hash =
      some (str "ABCDEF0123456789ABCDEF0123456789ABCDEF01") ∧
    (str "abcdef0123456789abcdef0123456789abcdef01" : List Char) ≠
      str "ABCDEF0123456789ABCDEF0123456789ABCDEF01" := by
  refine ⟨by decide, by decide, by decide⟩

/-- Witness for C7_cache_replay on a fresh validator and a concrete link. -/
theorem C7_cache_replay_witness :
    (extract_hash_from_magnet []
        (extract_hash_from_magnet [] [] C7magnet).snd C7magnet).fst.ok =
        (extract_hash_from_magnet [] [] C7magnet).fst.ok ∧
    (extract_hash_from_magnet []
        (extract_hash_from_magnet [] [] C7magnet).snd C7magnet).fst.msg =
        (extract_hash_from_magnet [] [] C7magnet).fst.msg ∧
    (extract_hash_from_magnet [] [] C7magnet).fst.hash =
        ((extract_hash_from_magnet []
            (extract_hash_from_magnet [] [] C7magnet).snd C7magnet).fst.hash).map pyLower :=
  C7_cache_replay [] [] C7magnet (by decide)

/-- Claim C4 (code bug): on a torrent whose hash fails validation,
reinject_torrent returns failure with the "Hash invalide" reason and never
calls the provider, but — contrary to the claim and to the spec's step
"record a failed attempt" — no Attempt row is written and the torrent's
attempts_count and last_attempt are untouched: the store comes back exactly
as it went in. -/
theorem C4_invalid_hash_skips_record :
    (validate_sha1_hash [] C4torrent.hash).fst = false ∧
    reinject_torrent [] false (fun _ => (true, str "NEW", [])) 7 id C4store 1000 C4torrent =
      { db := C4store, ok := false,
        message := str "Hash invalide: " ++ str "Longueur invalide: 3 (attendu: 40)",
        provider_called := false } ∧
    C4store.attempts = [] := by
  refine ⟨by decide, by decide, rfl⟩

theorem dropWhile_lt_eq_filter (c : Int) : ∀ (l : List Int), l.Pairwise (· ≤ ·) →
    l.dropWhile (fun ts => decide (ts < c)) = l.filter (fun ts => decide (c ≤ ts)) := by
  intro l
  induction l with
  | nil => intro _; rfl
  | cons x xs ih =>
    intro hp
    rw [List.pairwise_cons] at hp
    by_cases hx : x < c
    · rw [List.dropWhile_cons_of_pos (by simpa using hx),
        List.filter_cons_of_neg (by simpa using hx)]
      exact ih hp.2
    · rw [List.dropWhile_cons_of_neg (by simpa using hx),
        List.filter_cons_of_pos (by simpa using hx)]
      have hall : xs.filter (fun ts => decide (c ≤ ts)) = xs :=
        List.filter_eq_self.mpr fun a ha => by
          have hxa := hp.1 a ha
          simp only [decide_eq_true_eq]
          omega
      rw [hall]

/-- After pruning at a later time, a sorted history window narrows to the
later cutoff. -/
theorem pruneWindow_filter (hist : List Int) (tprev t : Int)
    (hp : hist.Pairwise (· ≤ ·)) (hle : tprev ≤ t) :
    pruneWindow t (hist.filter fun s => decide (tprev - 60 ≤ s)) =
      hist.filter fun s => decide (t - 60 ≤ s) := by
  rw [pruneWindow, dropWhile_lt_eq_filter (t - 60) _ (hp.filter _)]
  rw [List.filter_filter]
  refine List.filter_congr fun s _ => ?_
  by_cases hs : t - 60 ≤ s
  · have hs2 : tprev - 60 ≤ s := by omega
    simp [hs, hs2]
  · simp [hs]

theorem rl_bound_aux (maxC : Nat) :
    ∀ (pre : List Int) (hist : List Int) (tprev t : Int),
      hist.Pairwise (· ≤ ·) →
      (∀ s ∈ hist, s ≤ tprev) →
      List.Chain' (· ≤ ·) (tprev :: pre ++ [t]) →
      (rlStep maxC (rlWindow maxC (hist.filter fun s => decide (tprev - 60 ≤ s)) pre)
          t).snd = true →
      ((hist ++ (admittedTimes maxC (hist.filter fun s => decide (tprev - 60 ≤ s)) pre
          ++ [t])).filter (fun s => decide (t - 60 ≤ s))).length ≤ maxC := by
  intro pre
  induction pre with
  | nil =>
    intro hist tprev t hp hb hchain hadm
    have hch2 : List.Chain' (· ≤ ·) [tprev, t] := hchain
    have hle : tprev ≤ t := (List.chain'_cons.mp hch2).1
    rw [rlWindow] at hadm
    rw [rlStep, pruneWindow_filter hist tprev t hp hle] at hadm
    have hroom : (hist.filter fun s => decide (t - 60 ≤ s)).length < maxC := by
      by_contra hc
      rw [if_neg (by omega)] at hadm
      exact Bool.noConfusion hadm
    rw [admittedTimes, List.nil_append, List.filter_append, List.length_append]
    have h1 : ([t].filter fun s => decide (t - 60 ≤ s)).length ≤ 1 :=
      List.length_filter_le _ [t]
    omega
  | cons p ps ih =>
    intro hist tprev t hp hb hchain hadm
    have hch2 : List.Chain' (· ≤ ·) (tprev :: p :: (ps ++ [t])) := hchain
    have hle : tprev ≤ p := (List.chain'_cons.mp hch2).1
    have hchain2 : List.Chain' (· ≤ ·) (p :: ps ++ [t]) := (List.chain'_cons.mp hch2).2
    have hstep : rlStep maxC (hist.filter fun s => decide (tprev - 60 ≤ s)) p =
        (if (hist.filter fun s => decide (p - 60 ≤ s)).length < maxC
          then ((hist.filter fun s => decide (p - 60 ≤ s)) ++ [p], true)
          else (hist.filter fun s => decide (p - 60 ≤ s), false)) := by
      rw [rlStep, pruneWindow_filter hist tprev p hp hle]
    by_cases hroom : (hist.filter fun s => decide (p - 60 ≤ s)).length < maxC
    · -- p is admitted: continue with history hist ++ [p]
      have hp2 : (hist ++ [p]).Pairwise (· ≤ ·) := by
        rw [List.pairwise_append]
        exact ⟨hp, List.pairwise_singleton _ _,
          fun a ha b hbm => by
            rw [List.mem_singleton] at hbm
            subst hbm
            exact le_trans (hb a ha) hle⟩
      have hb2 : ∀ s ∈ hist ++ [p], s ≤ p := by
        intro s hs
        rcases List.mem_append.mp hs with h | h
        · exact le_trans (hb s h) hle
        · rw [List.mem_singleton] at h
          omega
      have hwin : (rlStep maxC (hist.filter fun s => decide (tprev - 60 ≤ s)) p).fst =
          (hist ++ [p]).filter fun s => decide (p - 60 ≤ s) := by
        rw [hstep, if_pos hroom, List.filter_append]
        simp
      have hadmit : (rlStep maxC (hist.filter fun s => decide (tprev - 60 ≤ s)) p).snd =
          true := by
        rw [hstep, if_pos hroom]
      have hadm2 : (rlStep maxC (rlWindow maxC ((hist ++ [p]).filter
          fun s => decide (p - 60 ≤ s)) ps) t).snd = true := by
        rw [← hwin]
        rw [rlWindow] at hadm
        exact hadm
      have hrec := ih (hist ++ [p]) p t hp2 hb2 hchain2 hadm2
      rw [admittedTimes, if_pos hadmit, hwin]
      have hshape : hist ++ (p :: admittedTimes maxC ((hist ++ [p]).filter
            fun s => decide (p - 60 ≤ s)) ps ++ [t]) =
          (hist ++ [p]) ++ (admittedTimes maxC ((hist ++ [p]).filter
            fun s => decide (p - 60 ≤ s)) ps ++ [t]) := by
        simp
      rw [hshape]
      exact hrec
    · -- p is refused: the history is unchanged, the cutoff advances to p
      have hb2 : ∀ s ∈ hist, s ≤ p := fun s hs => le_trans (hb s hs) hle
      have hwin : (rlStep maxC (hist.filter fun s => decide (tprev - 60 ≤ s)) p).fst =
          hist.filter fun s => decide (p - 60 ≤ s) := by
        rw [hstep, if_neg hroom]
      have hrefuse : (rlStep maxC (hist.filter fun s => decide (tprev - 60 ≤ s)) p).snd =
          false := by
        rw [hstep, if_neg hroom]
      have hadm2 : (rlStep maxC (rlWindow maxC (hist.filter
          fun s => decide (p - 60 ≤ s)) ps) t).snd = true := by
        rw [← hwin]
        rw [rlWindow] at hadm
        exact hadm
      have hrec := ih hist p t hp hb2 hchain2 hadm2
      rw [admittedTimes, if_neg (by rw [hrefuse]; exact Bool.false_ne_true), hwin]
      exact hrec

/-- Claim C2: in every execution — a sequence of admission checks at
nondecreasing wall-clock times — whenever acquire_slot admits a call, the
number of admitted calls whose timestamps lie within the last 60 seconds,
including the newly appended one, is at most max_calls_per_minute. -/
theorem C2_sliding_window (maxC : Nat) (pre : List Int) (t : Int)
    (hchain : List.Chain' (· ≤ ·) (pre ++ [t]))
    (hadm : (rlStep maxC (rlWindow maxC [] pre) t).snd = true) :
    ((admittedTimes maxC [] pre ++ [t]).filter
        (fun s => decide (t - 60 ≤ s))).length ≤ maxC := by
  have hmain := rl_bound_aux maxC pre [] ((pre ++ [t]).headD t) t
    (List.Pairwise.nil) (by simp)
  have hfe : (List.filter (fun s => decide ((pre ++ [t]).headD t - 60 ≤ s)) []) =
      ([] : List Int) := rfl
  rw [hfe] at hmain
  have hchain3 : List.Chain' (· ≤ ·) ((pre ++ [t]).headD t :: pre ++ [t]) := by
    cases pre with
    | nil =>
      exact List.chain'_cons.mpr ⟨le_refl t, hchain⟩
    | cons p ps =>
      exact List.chain'_cons.mpr ⟨le_refl p, hchain⟩
  have hres := hmain hchain3 hadm
  simpa using hres

/-- Witness for C2_sliding_window: limit 2, three prior checks (two admitted,
one refused), then an admission at time 75. -/
theorem C2_sliding_window_witness :
    ((admittedTimes 2 [] [0, 10, 30] ++ [75]).filter
        (fun s => decide ((75 : Int) - 60 ≤ s))).length ≤ 2 :=
  C2_sliding_window 2 [0, 10, 30] 75 (by norm_num [List.chain'_cons]) (by decide)

theorem acquireLoopEvents_no_lock (maxC : Nat) (start timeout : Int) :
    ∀ (times : List Int) (w : List Int),
      RLEvent.lockAcquire ∉ acquireLoopEvents maxC start timeout w times ∧
      RLEvent.lockRelease ∉ acquireLoopEvents maxC start timeout w times := by
  intro times
  induction times with
  | nil => intro w; simp [acquireLoopEvents]
  | cons t ts ih =>
    intro w
    simp only [acquireLoopEvents]
    split
    · simp
    · split
      · simp
      · constructor
        · intro hm
          rcases List.mem_cons.mp hm with h | h
          · exact RLEvent.noConfusion h
          · exact (ih _).1 h
        · intro hm
          rcases List.mem_cons.mp hm with h | h
          · exact RLEvent.noConfusion h
          · exact (ih _).2 h

/-- Claim C8 (amended): inside acquire_slot every sleep happens while the
limiter's lock IS held — the `async with self.lock` block spans the whole
waiting loop, so the guard is never released for the duration of a sleep and
other acquirers queue behind it. -/
theorem C8_sleep_holds_lock (maxC : Nat) (start timeout : Int) (w : List Int)
    (times : List Int) (i : Nat)
    (hsleep : (acquire_slot_events maxC start timeout w times).get? i =
      some RLEvent.sleepEvent) :
    lockHeldAt (acquire_slot_events maxC start timeout w times) i = true := by
  cases i with
  | zero =>
    rw [acquire_slot_events] at hsleep
    simp at hsleep
  | succ j =>
    rw [acquire_slot_events] at hsleep ⊢
    rw [lockHeldAt]
    rw [List.take_succ_cons]
    have hbody := hsleep
    rw [List.get?_cons_succ] at hbody
    -- the indexed event is a sleep, hence lies inside the loop events
    have hjlt : j < (acquireLoopEvents maxC start timeout w times).length := by
      by_contra hge
      push_neg at hge
      rcases Nat.lt_or_ge j ((acquireLoopEvents maxC start timeout w times).length + 1)
        with hlt | hge2
      · have hj : j = (acquireLoopEvents maxC start timeout w times).length := by omega
        rw [List.get?_eq_getElem?, List.getElem?_append_right (by omega),
          ← List.get?_eq_getElem?] at hbody
        rw [hj] at hbody
        simp at hbody
      · rw [List.get?_eq_none.mpr (by simp; omega)] at hbody
        exact Option.noConfusion hbody
    have htake : (acquireLoopEvents maxC start timeout w times ++
        [RLEvent.lockRelease]).take j =
        (acquireLoopEvents maxC start timeout w times).take j := by
      rw [List.take_append_of_le_length (by omega)]
    rw [htake]
    have hnorel : RLEvent.lockRelease ∉
        (acquireLoopEvents maxC start timeout w times).take j := fun hm =>
      (acquireLoopEvents_no_lock maxC start timeout times w).2 (List.mem_of_mem_take hm)
    rw [List.count_cons_self]
    rw [List.count_cons_of_ne (by exact fun hc => RLEvent.noConfusion hc)]
    rw [List.count_eq_zero.mpr hnorel]
    simp

/-- Counterexample to claim C8 as stated: with a full window (limit 1, one
admission at time 0) a call checking at time 30 sleeps, and at that sleep the
lock-held predicate is true, because asyncio.sleep is awaited inside the
`async with self.lock` block. -/
theorem C8_counterexample :
    (acquire_slot_events 1 0 60 [0] [30, 61]).get? 1 = some RLEvent.sleepEvent ∧
    lockHeldAt (acquire_slot_events 1 0 60 [0] [30, 61]) 1 = true := by
  refine ⟨by decide, by decide⟩

/-- Witness for C8_sleep_holds_lock at the concrete schedule of the
counterexample. -/
theorem C8_sleep_holds_lock_witness :
    lockHeldAt (acquire_slot_events 1 0 60 [0] [30, 61]) 1 = true :=
  C8_sleep_holds_lock 1 0 60 [0] [30, 61] 1 (by decide)

theorem listIndex_getElem : ∀ (l : List (List Char)), l.Nodup →
    ∀ (k : Nat) (hk : k < l.length), listIndex (l.get ⟨k, hk⟩) l = some k := by
  intro l
  induction l with
  | nil => intro _ k hk; exact absurd hk (by simp)
  | cons x xs ih =>
    intro hnd k hk
    rw [List.nodup_cons] at hnd
    cases k with
    | zero => simp [listIndex]
    | succ m =>
      have hm : m < xs.length := by simpa using hk
      have hget : (x :: xs).get ⟨m + 1, hk⟩ = xs.get ⟨m, hm⟩ := rfl
      rw [hget, listIndex]
      rw [if_neg (fun hx : x = xs.get ⟨m, hm⟩ => hnd.1 (by
        rw [hx]
        exact List.get_mem xs m hm))]
      rw [ih hnd.2 m hm]
      rfl

/-- Claim C9 (amended): interrupting the walk after the j-th visited
directory completes persists that directory with scan_in_progress = true, and
a restart within (or beyond) the 24-hour window does rescan — but it resumes
AT the recorded directory, re-scanning it and every later directory, and
never re-visits the directories before it. -/
theorem C9_walk_resume (dirs : List (List Char)) (st : SymlinkProcessingState)
    (now now2 : Int) (j : Nat)
    (hnd : dirs.Nodup) (hne : ∀ d ∈ dirs, d ≠ []) (hj : 1 ≤ j)
    (hlen : startIndex dirs st + j ≤ dirs.length) :
    (interruptedState dirs st now j).current_directory =
      dirs.getD (startIndex dirs st + j - 1) [] ∧
    (interruptedState dirs st now j).scan_in_progress = true ∧
    should_rescan (interruptedState dirs st now j) now2 = true ∧
    scannedDirs dirs (interruptedState dirs st now j) =
      dirs.drop (startIndex dirs st + j - 1) := by
  have hk : startIndex dirs st + j - 1 < dirs.length := by omega
  have hgetD : dirs.getD (startIndex dirs st + j - 1) [] =
      dirs.get ⟨startIndex dirs st + j - 1, hk⟩ := by
    rw [List.getD_eq_getElem?_getD, List.getElem?_eq_getElem hk]
    rfl
  refine ⟨rfl, rfl, ?_, ?_⟩
  · rw [should_rescan]
    simp only [interruptedState, perDirState]
    split
    · rfl
    · simp
  · rw [scannedDirs]
    congr 1
    rw [startIndex]
    have hcd : (interruptedState dirs st now j).current_directory ≠ [] := by
      simp only [interruptedState, perDirState]
      rw [hgetD]
      exact hne _ (List.get_mem dirs _ hk)
    rw [if_pos hcd]
    have hidx : listIndex (interruptedState dirs st now j).current_directory dirs =
        some (startIndex dirs st + j - 1) := by
      simp only [interruptedState, perDirState]
      rw [hgetD]
      exact listIndex_getElem dirs hnd _ hk
    rw [hidx]

/-- Counterexample to claim C9 as stated: interrupting a fresh walk over
A..E after C completes persists current_directory = "C" with
scan_in_progress = true (as claimed), but the restarted walk within the
24-hour window visits C, D and E — it re-scans C, not only D and E. -/
theorem C9_counterexample :
    (interruptedState C9dirs C9st0 100 3).current_directory = str "C" ∧
    (interruptedState C9dirs C9st0 100 3).scan_in_progress = true ∧
    should_rescan (interruptedState C9dirs C9st0 100 3) 200 = true ∧
    scannedDirs C9dirs (interruptedState C9dirs C9st0 100 3) =
      [str "C", str "D", str "E"] ∧
    str "C" ∈ scannedDirs C9dirs (interruptedState C9dirs C9st0 100 3) := by
  refine ⟨by decide, by decide, by decide, by decide, by decide⟩

/-- Witness for C9_walk_resume on the concrete A..E walk interrupted after
three directories. -/
theorem C9_walk_resume_witness :
    (interruptedState C9dirs C9st0 100 3).current_directory =
      C9dirs.getD (startIndex C9dirs C9st0 + 3 - 1) [] ∧
    (interruptedState C9dirs C9st0 100 3).scan_in_progress = true ∧
    should_rescan (interruptedState C9dirs C9st0 100 3) 200 = true ∧
    scannedDirs C9dirs (interruptedState C9dirs C9st0 100 3) =
      C9dirs.drop (startIndex C9dirs C9st0 + 3 - 1) :=
  C9_walk_resume C9dirs C9st0 100 200 3 (by decide) (by decide) (by decide) (by decide)

theorem drop_takeWhile_length {p : Char → Bool} : ∀ (l : List Char),
    l.drop (l.takeWhile p).length = l.dropWhile p := by
  intro l
  induction l with
  | nil => rfl
  | cons a t ih =>
    cases hpa : p a with
    | true => simp [List.takeWhile_cons, List.dropWhile_cons, hpa, ih]
    | false => simp [List.takeWhile_cons, List.dropWhile_cons, hpa]

theorem not_slash_mem_takeWhile (l : List Char) :
    '/' ∉ l.takeWhile (fun c => decide (c ≠ '/')) := fun hm => by
  have h := List.mem_takeWhile_imp hm
  simp at h

theorem zurgMatchAt_struct (l n : List Char) (h : zurgMatchAt l = some n) :
    ∃ s1 Q,
      l = str "/home/" ++ (s1 ++ (str "/seedbox/zurg/torrents/" ++ (n ++ '/' :: Q))) ∧
      s1 ≠ [] ∧ '/' ∉ s1 ∧ n ≠ [] ∧ '/' ∉ n := by
  simp only [zurgMatchAt] at h
  split_ifs at h with h1 h2 h3 h4 h5
  · -- surviving branch: all guards passed, h : some name = some n
    rw [Option.some.injEq] at h
    refine ⟨(l.drop 6).takeWhile (fun c => decide (c ≠ '/')),
      (((l.drop 6).drop ((l.drop 6).takeWhile (fun c => decide (c ≠ '/'))).length).drop
          23).dropWhile (fun c => decide (c ≠ '/')) |>.drop 1, ?_, h2, ?_, ?_, ?_⟩
    · -- reassemble the string
      have e1 : l = str "/home/" ++ l.drop 6 := by
        conv_lhs => rw [← List.take_append_drop 6 l]
        rw [h1]
      set r1 := l.drop 6 with hr1
      have e2 : r1 = r1.takeWhile (fun c => decide (c ≠ '/')) ++
          r1.drop (r1.takeWhile (fun c => decide (c ≠ '/'))).length := by
        rw [drop_takeWhile_length, List.takeWhile_append_dropWhile]
      set r2 := r1.drop (r1.takeWhile (fun c => decide (c ≠ '/'))).length with hr2
      have e3 : r2 = str "/seedbox/zurg/torrents/" ++ r2.drop 23 := by
        conv_lhs => rw [← List.take_append_drop 23 r2]
        rw [h3]
      set r3 := r2.drop 23 with hr3
      have e4 : r3 = n ++ r3.dropWhile (fun c => decide (c ≠ '/')) := by
        conv_lhs => rw [← List.takeWhile_append_dropWhile (fun c => decide (c ≠ '/')) r3]
        rw [← h]
      set r4 := r3.dropWhile (fun c => decide (c ≠ '/')) with hr4
      have e5 : r4 = '/' :: r4.drop 1 := by
        rw [drop_takeWhile_length, ← hr4] at h5
        cases hr : r4 with
        | nil =>
          rw [hr] at h5
          exact absurd h5 (by decide)
        | cons c cs =>
          rw [hr] at h5
          have hc : c = '/' := by
            have h6 : [c] = str "/" := by simpa [List.take] using h5
            simpa [str] using h6
          rw [hc]
          rfl
      calc l = str "/home/" ++ r1 := e1
        _ = str "/home/" ++ (r1.takeWhile (fun c => decide (c ≠ '/')) ++ r2) := by
            rw [← e2]
        _ = str "/home/" ++ (r1.takeWhile (fun c => decide (c ≠ '/')) ++
              (str "/seedbox/zurg/torrents/" ++ r3)) := by rw [← e3]
        _ = str "/home/" ++ (r1.takeWhile (fun c => decide (c ≠ '/')) ++
              (str "/seedbox/zurg/torrents/" ++ (n ++ r4))) := by rw [← e4]
        _ = str "/home/" ++ (r1.takeWhile (fun c => decide (c ≠ '/')) ++
              (str "/seedbox/zurg/torrents/" ++ (n ++ '/' :: r4.drop 1))) := by
            rw [← e5]
    · exact not_slash_mem_takeWhile _
    · rw [← h]
      exact h4
    · rw [← h]
      exact not_slash_mem_takeWhile _

theorem zurgSearch_struct : ∀ (cs n : List Char), zurgSearch cs = some n →
    ∃ P l2, cs = P ++ l2 ∧ zurgMatchAt l2 = some n := by
  intro cs
  induction cs with
  | nil => intro n h; exact absurd h (by simp [zurgSearch])
  | cons c rest ih =>
    intro n h
    rw [zurgSearch] at h
    cases hm : zurgMatchAt (c :: rest) with
    | some m =>
      rw [hm] at h
      rw [Option.some.injEq] at h
      exact ⟨[], c :: rest, rfl, h ▸ hm⟩
    | none =>
      rw [hm] at h
      obtain ⟨P, l2, hP, hmm⟩ := ih n h
      exact ⟨c :: P, l2, by rw [List.cons_append, ← hP], hmm⟩

theorem split_of_zurg (cs P s1 n Q : List Char)
    (hcs : cs = P ++ (str "/home/" ++ (s1 ++ (str "/seedbox/zurg/torrents/" ++
      (n ++ '/' :: Q)))))
    (hs1 : '/' ∉ s1) (hn : '/' ∉ n) :
    splitOnChar '/' cs =
      splitOnChar '/' P ++ ([str "home"] ++ ([s1] ++ ([str "seedbox"] ++
        ([str "zurg"] ++ ([str "torrents"] ++ ([n] ++ splitOnChar '/' Q)))))) := by
  subst hcs
  have h0 : P ++ (str "/home/" ++ (s1 ++ (str "/seedbox/zurg/torrents/" ++
      (n ++ '/' :: Q)))) =
      P ++ '/' :: (str "home" ++ '/' :: (s1 ++ '/' :: (str "seedbox" ++ '/' ::
        (str "zurg" ++ '/' :: (str "torrents" ++ '/' :: (n ++ '/' :: Q)))))) := rfl
  rw [h0, splitOnChar_append '/' P, splitOnChar_append '/' (str "home"),
    splitOnChar_append '/' s1, splitOnChar_append '/' (str "seedbox"),
    splitOnChar_append '/' (str "zurg"), splitOnChar_append '/' (str "torrents"),
    splitOnChar_append '/' n]
  rw [splitOnChar_of_not_mem '/' (str "home") (by decide),
    splitOnChar_of_not_mem '/' s1 hs1,
    splitOnChar_of_not_mem '/' (str "seedbox") (by decide),
    splitOnChar_of_not_mem '/' (str "zurg") (by decide),
    splitOnChar_of_not_mem '/' (str "torrents") (by decide),
    splitOnChar_of_not_mem '/' n hn]

theorem unique_seam {α : Type} (x : α) :
    ∀ (A C : List α) (R1 R2 : List α), x ∉ A → x ∉ C →
      A ++ x :: R1 = C ++ x :: R2 → A = C ∧ R1 = R2 := by
  intro A
  induction A with
  | nil =>
    intro C R1 R2 _ hxC heq
    cases C with
    | nil =>
      rw [List.nil_append, List.nil_append] at heq
      injection heq with h1 h2
      exact ⟨rfl, h2⟩
    | cons c C2 =>
      rw [List.nil_append, List.cons_append] at heq
      injection heq with h1 h2
      exact absurd (h1 ▸ List.mem_cons_self c C2) hxC
  | cons a A2 ih =>
    intro C R1 R2 hxA hxC heq
    cases C with
    | nil =>
      rw [List.nil_append, List.cons_append] at heq
      injection heq with h1 h2
      exact absurd (h1.symm ▸ List.mem_cons_self a A2) hxA
    | cons c C2 =>
      rw [List.cons_append, List.cons_append] at heq
      injection heq with h1 h2
      obtain ⟨hA, hR⟩ := ih C2 R1 R2 (fun hm => hxA (List.mem_cons_of_mem a hm))
        (fun hm => hxC (List.mem_cons_of_mem c hm)) h2
      exact ⟨by rw [h1, hA], hR⟩

theorem partsLoop_seam : ∀ (F1 : List (List Char)) (s : List Char) (F2 : List (List Char)),
    str "torrents" ∉ F1 →
    partsLoopFind (F1 ++ str "torrents" :: s :: F2) = some s := by
  intro F1
  induction F1 with
  | nil =>
    intro s F2 _
    rw [List.nil_append, partsLoopFind, if_pos rfl]
  | cons q F1x ih =>
    intro s F2 hq
    rw [List.mem_cons, not_or] at hq
    cases F1x with
    | nil =>
      rw [List.cons_append, List.nil_append, partsLoopFind,
        if_neg (fun hqq : q = str "torrents" => hq.1 hqq.symm), partsLoopFind, if_pos rfl]
    | cons y ys =>
      rw [List.cons_append, List.cons_append, partsLoopFind,
        if_neg (fun hqq : q = str "torrents" => hq.1 hqq.symm), ← List.cons_append]
      exact ih s F2 hq.2

theorem partsLoop_none : ∀ (F : List (List Char)), str "torrents" ∉ F →
    partsLoopFind F = none := by
  intro F
  induction F with
  | nil => intro _; rfl
  | cons p rest ih =>
    intro hm
    rw [List.mem_cons, not_or] at hm
    cases rest with
    | nil => rfl
    | cons n ns =>
      rw [partsLoopFind, if_neg (fun hp : p = str "torrents" => hm.1 hp.symm)]
      exact ih hm.2

/-- Claim C10 (amended): for a target whose split contains a unique
`torrents` segment followed by a further segment (that segment being a real
path part, i.e. non-empty and not `.`), `_extract_torrent_name` returns the
segment immediately following `torrents`; for a target with no `torrents`
segment among its parts, it returns the literal string "unknown" — not the
target's parent directory name. -/
theorem C10_extract_name_fallback :
    (∀ t : List Char, str "torrents" ∉ pythonPathParts t →
      extract_torrent_name t = str "unknown") ∧
    (∀ t s A B, splitOnChar '/' t = A ++ str "torrents" :: s :: B →
      str "torrents" ∉ A → str "torrents" ∉ B →
      s ≠ [] → s ≠ str "." → s ≠ str "torrents" →
      extract_torrent_name t = s) := by
  constructor
  · intro t hmem
    have hz : zurgSearch t = none := by
      cases hzz : zurgSearch t with
      | none => rfl
      | some n =>
        obtain ⟨P, l2, hP, hm⟩ := zurgSearch_struct t n hzz
        obtain ⟨s1, Q, hl2, _, hs1, _, hn⟩ := zurgMatchAt_struct l2 n hm
        have hsplitz := split_of_zurg t P s1 n Q (by rw [hP, hl2]) hs1 hn
        have hTin : str "torrents" ∈ splitOnChar '/' t := by
          rw [hsplitz]
          simp
        have hTp : str "torrents" ∈ pythonPathParts t := by
          rw [pythonPathParts]
          exact List.mem_append.mpr (Or.inr (List.mem_filter.mpr ⟨hTin, by decide⟩))
        exact absurd hTp hmem
    simp only [extract_torrent_name, hz]
    rw [partsLoop_none _ hmem]
  · intro t s A B hsplit hA hB hsnil hsdot hsT
    cases hzz : zurgSearch t with
    | some n =>
      obtain ⟨P, l2, hP, hm⟩ := zurgSearch_struct t n hzz
      obtain ⟨s1, Q, hl2, _, hs1, _, hn⟩ := zurgMatchAt_struct l2 n hm
      have hsplitz := split_of_zurg t P s1 n Q (by rw [hP, hl2]) hs1 hn
      have hC : splitOnChar '/' t =
          (splitOnChar '/' P ++ [str "home", s1, str "seedbox", str "zurg"]) ++
            str "torrents" :: n :: splitOnChar '/' Q := by
        rw [hsplitz]
        simp [List.append_assoc]
      have hsplit2 : A ++ str "torrents" :: s :: B =
          (splitOnChar '/' P ++ [str "home", s1, str "seedbox", str "zurg"]) ++
            str "torrents" :: n :: splitOnChar '/' Q := hsplit.symm.trans hC
      have hcl : List.count (str "torrents") (A ++ str "torrents" :: s :: B) = 1 := by
        rw [List.count_append, List.count_cons_self,
          List.count_cons_of_ne (fun he : str "torrents" = s => hsT he.symm),
          List.count_eq_zero.mpr hA, List.count_eq_zero.mpr hB]
      have hcr := hcl
      rw [hsplit2, List.count_append, List.count_cons_self] at hcr
      have hCmem : str "torrents" ∉
          splitOnChar '/' P ++ [str "home", s1, str "seedbox", str "zurg"] :=
        List.count_eq_zero.mp (by omega)
      obtain ⟨hAC, hR⟩ := unique_seam (str "torrents") A _ (s :: B)
        (n :: splitOnChar '/' Q) hA hCmem hsplit2
      injection hR with h1 h2
      simp only [extract_torrent_name, hzz]
      exact h1.symm
    | none =>
      have hpT : (fun p => decide (p ≠ [] ∧ p ≠ str ".")) (str "torrents") = true := by
        decide
      have hpS : (fun p => decide (p ≠ [] ∧ p ≠ str ".")) s = true := by
        simp [hsnil, hsdot]
      have hparts : pythonPathParts t =
          ((if t.take 1 = str "/" then [str "/"] else []) ++
            A.filter (fun p => decide (p ≠ [] ∧ p ≠ str "."))) ++
            str "torrents" :: s :: B.filter (fun p => decide (p ≠ [] ∧ p ≠ str ".")) := by
        rw [pythonPathParts, hsplit, List.filter_append,
          @List.filter_cons_of_pos (List Char) (fun p => decide (p ≠ [] ∧ p ≠ str "."))
            (str "torrents") (s :: B) hpT,
          @List.filter_cons_of_pos (List Char) (fun p => decide (p ≠ [] ∧ p ≠ str "."))
            s B hpS]
        exact (List.append_assoc _ _ _).symm
      have hF1 : str "torrents" ∉
          ((if t.take 1 = str "/" then [str "/"] else []) ++
            A.filter (fun p => decide (p ≠ [] ∧ p ≠ str "."))) := by
        intro hmm
        rcases List.mem_append.mp hmm with hm1 | hm2
        · by_cases hc : t.take 1 = str "/"
          · rw [if_pos hc, List.mem_singleton] at hm1
            exact absurd hm1 (by decide)
          · rw [if_neg hc] at hm1
            exact absurd hm1 (List.not_mem_nil _)
        · exact hA (List.mem_filter.mp hm2).1
      simp only [extract_torrent_name, hzz]
      rw [hparts, partsLoop_seam _ s _ hF1]

/-- C10 counterexample: a broken symlink target with no `torrents` segment.
symlink_checker._extract_torrent_name returns the literal "unknown", while
the parent-directory-name fallback the claim describes (implemented only in
the backend service variant) would return "Foo". -/
theorem C10_counterexample :
    extract_torrent_name (str "/data/media/Foo/file.mkv") = str "unknown" ∧
    backend_extract_torrent_name (str "/data/media/Foo/file.mkv") = str "Foo" ∧
    str "unknown" ≠ str "Foo" :=
  ⟨by decide, by decide, by decide⟩

/-- Witness for C10: both conjuncts applied at concrete targets. -/
theorem C10_extract_name_fallback_witness :
    extract_torrent_name (str "/data/torrents/Foo/file.mkv") = str "Foo" ∧
    extract_torrent_name (str "/data/media/Bar/file.mkv") = str "unknown" :=
  ⟨C10_extract_name_fallback.2 (str "/data/torrents/Foo/file.mkv") (str "Foo")
      [[], str "data"] [str "file.mkv"] (by decide) (by decide) (by decide)
      (by decide) (by decide) (by decide),
    C10_extract_name_fallback.1 (str "/data/media/Bar/file.mkv") (by decide)⟩

end RDTM

